import Mathlib

/-!
Shallow embedding of the schema-builder core (src/SchemaBuilder.ts):
JS number and date primitives, the JSON value tree, the JSON schema
document tree, the structural transformation operations, the validation
engine model, the validator cache protocol, and the coercion and parse
pipeline, together with theorems settling the frozen claims.
-/

/-- Result of the JS Number conversion applied to a string: NaN, a signed
infinity (the flag is true for negative infinity), or a finite value
represented exactly as a rational. -/
inductive JsNum where
  | nan : JsNum
  | inf : Bool → JsNum
  | val : ℚ → JsNum
deriving DecidableEq

/-- Math.floor on a JS number: finite values round toward negative infinity,
NaN and the infinities are returned unchanged. -/
def jsFloor : JsNum → JsNum
  | .nan => .nan
  | .inf b => .inf b
  | .val q => .val ((⌊q⌋ : ℤ) : ℚ)

/-- JS whitespace stripped by Number: space, tab, newline, carriage return. -/
def jsWhitespace (c : Char) : Bool :=
  c == ' ' || c == '\t' || c == '\n' || c == '\r'

/-- Strip leading and trailing JS whitespace from a character list. -/
def trimJsWs (cs : List Char) : List Char :=
  ((cs.dropWhile jsWhitespace).reverse.dropWhile jsWhitespace).reverse

/-- Split a character list into its leading decimal digits and the rest. -/
def takeDigits : List Char → List Char × List Char
  | [] => ([], [])
  | c :: r =>
    if c.isDigit then
      let p := takeDigits r
      (c :: p.1, p.2)
    else ([], c :: r)

/-- Decimal value of a digit list. -/
def digitsToNat (ds : List Char) : Nat :=
  ds.foldl (fun a c => a * 10 + (c.toNat - 48)) 0

/-- Exponent part of a JS decimal literal, applied to a mantissa given as
the integer formed by all mantissa digits over ten to the fraction
length. -/
def parseExponentPart (m fl : Nat) (t : List Char) : Option ℚ :=
  let p : Bool × List Char :=
    match t with
    | '+' :: u => (false, u)
    | '-' :: u => (true, u)
    | u => (false, u)
  let q := takeDigits p.2
  if q.1.isEmpty || !q.2.isEmpty then none
  else
    let e := digitsToNat q.1
    if p.1 then some (mkRat m (10 ^ (fl + e)))
    else some (mkRat (m * 10 ^ e) (10 ^ fl))

/-- Unsigned JS decimal literal: digits, an optional fraction, and an
optional exponent; at least one digit must appear around the dot. -/
def parseDecCore (cs : List Char) : Option ℚ :=
  let p := takeDigits cs
  let q : List Char × List Char :=
    match p.2 with
    | '.' :: t => takeDigits t
    | _ => ([], p.2)
  if p.1.isEmpty && q.1.isEmpty then none
  else
    let m : Nat := digitsToNat (p.1 ++ q.1)
    let fl : Nat := q.1.length
    match q.2 with
    | [] => some (mkRat m (10 ^ fl))
    | 'e' :: t => parseExponentPart m fl t
    | 'E' :: t => parseExponentPart m fl t
    | _ => none

/-- Hexadecimal digit value. -/
def hexDigitVal (c : Char) : Option Nat :=
  if c.isDigit then some (c.toNat - 48)
  else if 'a' ≤ c ∧ c ≤ 'f' then some (c.toNat - 87)
  else if 'A' ≤ c ∧ c ≤ 'F' then some (c.toNat - 55)
  else none

/-- Octal digit value. -/
def octDigitVal (c : Char) : Option Nat :=
  if '0' ≤ c ∧ c ≤ '7' then some (c.toNat - 48) else none

/-- Binary digit value. -/
def binDigitVal (c : Char) : Option Nat :=
  if c == '0' then some 0 else if c == '1' then some 1 else none

/-- Value of a non-empty digit string in the given base, or none. -/
def radixVal (base : Nat) (dv : Char → Option Nat) (cs : List Char) : Option Nat :=
  if cs.isEmpty then none
  else cs.foldl (fun acc c =>
    match acc, dv c with
    | some a, some d => some (a * base + d)
    | _, _ => none) (some 0)

/-- The JS Number conversion of a string, as used by transformStringToNumber:
whitespace-trimmed; the empty string is 0; 0x, 0o and 0b radix literals
(unsigned); otherwise an optionally signed decimal literal or Infinity;
anything else is NaN. Host-specific extensions beyond this grammar are not
modelled. -/
def jsNumber (s : String) : JsNum :=
  let cs := trimJsWs s.toList
  match cs with
  | [] => .val 0
  | '0' :: 'x' :: r => (radixVal 16 hexDigitVal r).elim .nan (fun n => .val (mkRat n 1))
  | '0' :: 'X' :: r => (radixVal 16 hexDigitVal r).elim .nan (fun n => .val (mkRat n 1))
  | '0' :: 'o' :: r => (radixVal 8 octDigitVal r).elim .nan (fun n => .val (mkRat n 1))
  | '0' :: 'O' :: r => (radixVal 8 octDigitVal r).elim .nan (fun n => .val (mkRat n 1))
  | '0' :: 'b' :: r => (radixVal 2 binDigitVal r).elim .nan (fun n => .val (mkRat n 1))
  | '0' :: 'B' :: r => (radixVal 2 binDigitVal r).elim .nan (fun n => .val (mkRat n 1))
  | _ =>
    let p : Bool × List Char :=
      match cs with
      | '+' :: u => (false, u)
      | '-' :: u => (true, u)
      | u => (false, u)
    if p.2 = "Infinity".toList then .inf p.1
    else
      match parseDecCore p.2 with
      | some q => .val (if p.1 then -q else q)
      | none => .nan

/-- The 400-year era containing a day count (relative to 1970-01-01),
after shifting to the 0000-03-01 epoch of the standard era-based civil
conversion used to render timestamps. -/
def eraOfDays (z0 : Int) : Int := (z0 + 719468) / 146097

/-- Day of era: the position of a day within its 400-year era. -/
def doeOfDays (z0 : Int) : Nat := ((z0 + 719468) % 146097).toNat

/-- Year of era (0..399) from the day of era. -/
def yoeOfDoe (doe : Nat) : Nat :=
  (doe - doe / 1460 + doe / 36524 - doe / 146096) / 365

/-- Day of the March-based year from the day of era. -/
def doyOfDoe (doe : Nat) : Nat :=
  doe - (365 * yoeOfDoe doe + yoeOfDoe doe / 4 - yoeOfDoe doe / 100)

/-- March-based month index (0 = March) from the day of year. -/
def mpOfDoy (doy : Nat) : Nat := (5 * doy + 2) / 153

/-- Day of month from the day of year. -/
def dayOfDoy (doy : Nat) : Nat := doy - (153 * mpOfDoy doy + 2) / 5 + 1

/-- Calendar month from the day of year. -/
def monthOfDoy (doy : Nat) : Nat :=
  if mpOfDoy doy < 10 then mpOfDoy doy + 3 else mpOfDoy doy - 9

/-- Civil date from a day count relative to 1970-01-01: year, month, day. -/
def civilFromDays (z0 : Int) : Int × Nat × Nat :=
  let m := monthOfDoy (doyOfDoe (doeOfDays z0))
  let y : Int := (yoeOfDoe (doeOfDays z0) : Int) + eraOfDays z0 * 400
  (if m ≤ 2 then y + 1 else y, m, dayOfDoy (doyOfDoe (doeOfDays z0)))

/-- Day count relative to 1970-01-01 of a civil date. -/
def daysFromCivil (y0 : Int) (m d : Nat) : Int :=
  let y : Int := if m ≤ 2 then y0 - 1 else y0
  let era : Int := y / 400
  let yoe : Nat := (y - era * 400).toNat
  let mp : Nat := if m > 2 then m - 3 else m + 9
  let doy : Nat := (153 * mp + 2) / 5 + d - 1
  let doe : Nat := yoe * 365 + yoe / 4 - yoe / 100 + doy
  era * 146097 + (doe : Int) - 719468

/-- Whether a year is a leap year. -/
def isLeapYear (y : Int) : Bool :=
  (y % 4 == 0 && y % 100 != 0) || y % 400 == 0

/-- Number of days in a month of a given year. -/
def daysInMonth (y : Int) (m : Nat) : Nat :=
  if m = 2 then (if isLeapYear y then 29 else 28)
  else if m = 4 ∨ m = 6 ∨ m = 9 ∨ m = 11 then 30
  else 31

/-- The character of a decimal digit value. -/
def digitChar (n : Nat) : Char := Char.ofNat (48 + n)

/-- Two-digit zero-padded decimal rendering of values below 100. -/
def pad2 (n : Nat) : String :=
  String.mk [digitChar (n / 10 % 10), digitChar (n % 10)]

/-- Three-digit zero-padded decimal rendering of values below 1000. -/
def pad3 (n : Nat) : String :=
  String.mk [digitChar (n / 100 % 10), digitChar (n / 10 % 10), digitChar (n % 10)]

/-- Four-digit zero-padded decimal rendering of values below 10000. -/
def pad4 (n : Nat) : String :=
  String.mk [digitChar (n / 1000 % 10), digitChar (n / 100 % 10),
    digitChar (n / 10 % 10), digitChar (n % 10)]

/-- The Date toISOString rendering of a millisecond timestamp, for
timestamps whose year lies in 0..9999 (the expanded-year forms outside
this range are not modelled). -/
def toISOString (t : Int) : String :=
  let msInDay := (t % 86400000).toNat
  let c := civilFromDays (t / 86400000)
  pad4 c.1.toNat ++ "-" ++ pad2 c.2.1 ++ "-" ++ pad2 c.2.2 ++ "T" ++
    pad2 (msInDay / 3600000) ++ ":" ++ pad2 (msInDay % 3600000 / 60000) ++ ":" ++
    pad2 (msInDay % 60000 / 1000) ++ "." ++ pad3 (msInDay % 1000) ++ "Z"

/-- Read exactly two decimal digits. -/
def readD2 : List Char → Option (Nat × List Char)
  | a :: b :: r =>
    if a.isDigit && b.isDigit then some ((a.toNat - 48) * 10 + (b.toNat - 48), r) else none
  | _ => none

/-- Read exactly four decimal digits. -/
def readD4 (cs : List Char) : Option (Nat × List Char) :=
  match readD2 cs with
  | some (hi, r) =>
    match readD2 r with
    | some (lo, r2) => some (hi * 100 + lo, r2)
    | none => none
  | none => none

/-- Read the timezone designator: Z, or a signed hour-minute offset.
Returns the offset in minutes. -/
def readTimezone : List Char → Option Int
  | ['Z'] => some 0
  | '+' :: r =>
    (match readD2 r with
     | some (h, ':' :: r2) =>
       (match readD2 r2 with
        | some (m, []) => if h ≤ 23 ∧ m ≤ 59 then some ((h * 60 + m : Nat)) else none
        | _ => none)
     | _ => none)
  | '-' :: r =>
    (match readD2 r with
     | some (h, ':' :: r2) =>
       (match readD2 r2 with
        | some (m, []) => if h ≤ 23 ∧ m ≤ 59 then some (-((h * 60 + m : Nat) : Int)) else none
        | _ => none)
     | _ => none)
  | _ => none

/-- Read the optional seconds-and-fraction part followed by the timezone:
returns seconds, milliseconds and the offset in minutes. -/
def readSecondsAndZone (cs : List Char) : Option (Nat × Nat × Int) :=
  match cs with
  | ':' :: r =>
    (match readD2 r with
     | some (ss, rest) =>
       (match rest with
        | '.' :: fr =>
          let p := takeDigits fr
          if p.1.isEmpty then none
          else
            let ms := digitsToNat ((p.1 ++ ['0', '0', '0']).take 3)
            (readTimezone p.2).map (fun tz => (ss, ms, tz))
        | _ => (readTimezone rest).map (fun tz => (ss, 0, tz)))
     | none => none)
  | _ => (readTimezone cs).map (fun tz => (0, 0, tz))

/-- The ECMAScript date-time string format accepted by new Date: the
date-only forms YYYY, YYYY-MM and YYYY-MM-DD (interpreted as UTC
midnight) and the date-and-time form with an explicit timezone
designator, where hour 24 is allowed when minutes, seconds and
milliseconds are zero (time forms without a timezone designator, which
the host interprets in local time, and expanded years are not modelled):
returns the millisecond timestamp when the string is a valid date. -/
def jsDateParse (s : String) : Option Int :=
  match readD4 s.toList with
  | some (y, []) => some (daysFromCivil y 1 1 * 86400000)
  | some (y, '-' :: r1) =>
    (match readD2 r1 with
     | some (mo, []) =>
       if 1 ≤ mo ∧ mo ≤ 12 then some (daysFromCivil y mo 1 * 86400000) else none
     | some (mo, '-' :: r2) =>
       (match readD2 r2 with
        | some (dy, []) =>
          if 1 ≤ mo ∧ mo ≤ 12 ∧ 1 ≤ dy ∧ dy ≤ daysInMonth y mo then
            some (daysFromCivil y mo dy * 86400000)
          else none
        | some (dy, 'T' :: r3) =>
          (match readD2 r3 with
           | some (hh, ':' :: r4) =>
             (match readD2 r4 with
              | some (mi, r5) =>
                (match readSecondsAndZone r5 with
                 | some (ss, ms, tz) =>
                   if 1 ≤ mo ∧ mo ≤ 12 ∧ 1 ≤ dy ∧ dy ≤ daysInMonth y mo ∧
                      (hh ≤ 23 ∨ (hh = 24 ∧ mi = 0 ∧ ss = 0 ∧ ms = 0)) ∧
                      mi ≤ 59 ∧ ss ≤ 59 then
                     some (daysFromCivil y mo dy * 86400000 +
                       ((hh * 3600000 + mi * 60000 + ss * 1000 + ms : Nat) : Int) -
                       tz * 60000)
                   else none
                 | none => none)
              | none => none)
           | _ => none)
        | _ => none)
     | _ => none)
  | _ => none

mutual
/-- A JS runtime value as handled by the parse pipeline: JSON values plus
Date objects (a Date carries its millisecond timestamp); numbers carry the
full JS number domain via JsNum. -/
inductive Json where
  | null : Json
  | bool : Bool → Json
  | num : JsNum → Json
  | str : String → Json
  | date : Int → Json
  | arr : JsonList → Json
  | obj : JsonFields → Json

/-- A list of JS values (the elements of an array). -/
inductive JsonList where
  | jnil : JsonList
  | jcons : Json → JsonList → JsonList

/-- The own enumerable string-keyed fields of a JS object, in insertion
order. -/
inductive JsonFields where
  | fnil : JsonFields
  | fcons : String → Json → JsonFields → JsonFields
end

/-- Length of a value list. -/
def lengthJL : JsonList → Nat
  | .jnil => 0
  | .jcons _ tl => 1 + lengthJL tl

/-- Whether an object has a field with the given key. -/
def hasField : JsonFields → String → Bool
  | .fnil, _ => false
  | .fcons k _ tl, n => if k = n then true else hasField tl n

/-- A JSON schema document node (the JSONSchema object tree manipulated by
SchemaBuilder), restricted to the keywords the verified operations touch:
type (a type name or a list of type names), properties, required,
additionalProperties (a boolean or a sub-schema), items (a single schema or
a tuple list), format, minItems, default, and the combinator keywords
oneOf, allOf, anyOf and not. A field that is none is absent from the
underlying JSON object. Descriptive facets (title, description, examples,
numeric and string facets) play no role in any verified claim and are not
carried. -/
inductive JSONSchema where
  | mk :
    (type : Option (Sum String (List String))) →
    (properties : Option (List (String × JSONSchema))) →
    (required : Option (List String)) →
    (additionalProperties : Option (Sum Bool JSONSchema)) →
    (items : Option (Sum JSONSchema (List JSONSchema))) →
    (format : Option String) →
    (minItems : Option Nat) →
    (dflt : Option Json) →
    (oneOf : Option (List JSONSchema)) →
    (allOf : Option (List JSONSchema)) →
    (anyOf : Option (List JSONSchema)) →
    (notS : Option JSONSchema) →
    JSONSchema

/-- The type keyword. -/
def JSONSchema.type : JSONSchema → Option (Sum String (List String))
  | .mk t _ _ _ _ _ _ _ _ _ _ _ => t

/-- The properties keyword. -/
def JSONSchema.properties : JSONSchema → Option (List (String × JSONSchema))
  | .mk _ p _ _ _ _ _ _ _ _ _ _ => p

/-- The required keyword. -/
def JSONSchema.required : JSONSchema → Option (List String)
  | .mk _ _ r _ _ _ _ _ _ _ _ _ => r

/-- The additionalProperties keyword. -/
def JSONSchema.additionalProperties : JSONSchema → Option (Sum Bool JSONSchema)
  | .mk _ _ _ a _ _ _ _ _ _ _ _ => a

/-- The items keyword. -/
def JSONSchema.items : JSONSchema → Option (Sum JSONSchema (List JSONSchema))
  | .mk _ _ _ _ i _ _ _ _ _ _ _ => i

/-- The format keyword. -/
def JSONSchema.format : JSONSchema → Option String
  | .mk _ _ _ _ _ f _ _ _ _ _ _ => f

/-- The minItems keyword. -/
def JSONSchema.minItems : JSONSchema → Option Nat
  | .mk _ _ _ _ _ _ m _ _ _ _ _ => m

/-- The default keyword. -/
def JSONSchema.dflt : JSONSchema → Option Json
  | .mk _ _ _ _ _ _ _ d _ _ _ _ => d

/-- The oneOf keyword. -/
def JSONSchema.oneOf : JSONSchema → Option (List JSONSchema)
  | .mk _ _ _ _ _ _ _ _ o _ _ _ => o

/-- The allOf keyword. -/
def JSONSchema.allOf : JSONSchema → Option (List JSONSchema)
  | .mk _ _ _ _ _ _ _ _ _ a _ _ => a

/-- The anyOf keyword. -/
def JSONSchema.anyOf : JSONSchema → Option (List JSONSchema)
  | .mk _ _ _ _ _ _ _ _ _ _ a _ => a

/-- The not keyword. -/
def JSONSchema.notS : JSONSchema → Option JSONSchema
  | .mk _ _ _ _ _ _ _ _ _ _ _ n => n

/-- The schema object with no keywords. -/
def JSONSchema.empty : JSONSchema :=
  .mk none none none none none none none none none none none none

/-- Replace the properties keyword. -/
def JSONSchema.withProperties : JSONSchema → Option (List (String × JSONSchema)) → JSONSchema
  | .mk t _ r a i f m d o al an n, p => .mk t p r a i f m d o al an n

/-- Replace the required keyword. -/
def JSONSchema.withRequired : JSONSchema → Option (List String) → JSONSchema
  | .mk t p _ a i f m d o al an n, r => .mk t p r a i f m d o al an n

/-- Replace the additionalProperties keyword. -/
def JSONSchema.withAdditionalProperties : JSONSchema → Option (Sum Bool JSONSchema) → JSONSchema
  | .mk t p r _ i f m d o al an n, a => .mk t p r a i f m d o al an n

/-- Remove the default keyword (the delete property.default statement). -/
def JSONSchema.clearDflt : JSONSchema → JSONSchema
  | .mk t p r a i f m _ o al an n => .mk t p r a i f m none o al an n

/-- Look up a key in a properties object. -/
def findProp : List (String × JSONSchema) → String → Option JSONSchema
  | [], _ => none
  | (k, v) :: tl, n => if k = n then some v else findProp tl n

/-- JS property assignment on an object: update the value in place when the
key exists, append the key otherwise. -/
def setKey : List (String × JSONSchema) → String → JSONSchema → List (String × JSONSchema)
  | [], k, v => [(k, v)]
  | (k1, v1) :: tl, k, v =>
    if k1 = k then (k1, v) :: tl else (k1, v1) :: setKey tl k v

/-- JS delete of a key from an object. -/
def delKey (l : List (String × JSONSchema)) (n : String) : List (String × JSONSchema) :=
  l.filter (fun kv => decide (kv.1 ≠ n))

/-- Object.keys of the properties object (empty when absent); this is the
value of the properties getter of SchemaBuilder. -/
def propertyNamesOf (s : JSONSchema) : List String :=
  (s.properties.getD []).map Prod.fst

/-- The hasType predicate: whether the type keyword mentions the given
type name. -/
def hasType (s : JSONSchema) (t : String) : Bool :=
  match s.type with
  | some (.inl u) => u = t
  | some (.inr l) => decide (t ∈ l)
  | none => false

/-- The isObjectSchema getter. -/
def isObjectSchema (s : JSONSchema) : Bool :=
  hasType s "object" || (s.type.isNone && s.properties.isSome)

/-- The hasSchemasCombinationKeywords getter. -/
def hasSchemasCombinationKeywords (s : JSONSchema) : Bool :=
  s.oneOf.isSome || s.allOf.isSome || s.anyOf.isSome || s.notS.isSome

/-- JS truthiness of the additionalProperties keyword: false when absent or
when set to the boolean false, true when set to true or to a sub-schema. -/
def truthyAddProps : Option (Sum Bool JSONSchema) → Bool
  | some (.inl b) => b
  | some (.inr _) => true
  | none => false

/-- The hasAdditionalProperties getter: an object schema whose
additionalProperties keyword is anything but the literal false. -/
def hasAdditionalProperties (s : JSONSchema) : Bool :=
  isObjectSchema s &&
    (match s.additionalProperties with
     | some (.inl false) => false
     | _ => true)

/-- The isSimpleObjectSchema getter. -/
def isSimpleObjectSchema (s : JSONSchema) : Bool :=
  isObjectSchema s && !hasAdditionalProperties s && !hasSchemasCombinationKeywords s

/-- Errors surfaced by the embedded operations: shape errors (VError with
the name of the offending operation), duplicate-property errors, and
validation failures. -/
inductive SBError where
  | shapeError : String → SBError
  | duplicateProperty : String → SBError
  | validationFailed : SBError
deriving DecidableEq

/-- Whether an Except value is an error. -/
def isErrorE {α : Type} : Except SBError α → Bool
  | .error _ => true
  | .ok _ => false

/-- The emptySchema constructor: an object schema with no properties and
additionalProperties set to false. -/
def emptySchema (nullable : Bool) : JSONSchema :=
  .mk (some (if nullable then .inr ["object", "null"] else .inl "object"))
    none none (some (.inl false)) none none none none none none none none

/-- The objectSchema constructor, for property definitions given as a list
of name, sub-schema and required flag (the optional-property bracket form
of the source maps to required = false; the multi-schema anyOf bracket
form is not needed by any claim and is not modelled): properties in
definition order, required collecting the required names in order and
omitted when empty, additionalProperties false. -/
def objectSchema (defs : List (String × JSONSchema × Bool)) (nullable : Bool) : JSONSchema :=
  let required := (defs.filter (fun d => d.2.2)).map (fun d => d.1)
  let properties := defs.map (fun d => (d.1, d.2.1))
  .mk (some (if nullable then .inr ["object", "null"] else .inl "object"))
    (if properties.isEmpty then none else some properties)
    (if required.isEmpty then none else some required)
    (some (.inl false)) none none none none none none none none

/-- The stringSchema constructor. -/
def stringSchema (nullable : Bool) : JSONSchema :=
  .mk (some (if nullable then .inr ["string", "null"] else .inl "string"))
    none none none none none none none none none none none

/-- The numberSchema constructor. -/
def numberSchema (nullable : Bool) : JSONSchema :=
  .mk (some (if nullable then .inr ["number", "null"] else .inl "number"))
    none none none none none none none none none none none

/-- The integerSchema constructor. -/
def integerSchema (nullable : Bool) : JSONSchema :=
  .mk (some (if nullable then .inr ["integer", "null"] else .inl "integer"))
    none none none none none none none none none none none

/-- The booleanSchema constructor. -/
def booleanSchema (nullable : Bool) : JSONSchema :=
  .mk (some (if nullable then .inr ["boolean", "null"] else .inl "boolean"))
    none none none none none none none none none none none

/-- The arraySchema constructor. -/
def arraySchema (items : JSONSchema) (nullable : Bool) : JSONSchema :=
  .mk (some (if nullable then .inr ["array", "null"] else .inl "array"))
    none none none (some (.inl items)) none none none none none none none

/-- The anyOf wrapper object built by mergeProperties for a shared property
name: a fresh schema object holding only an anyOf list. -/
def anyOfPair (a b : JSONSchema) : JSONSchema :=
  .mk none none none none none none none none none none (some [a, b]) none

/-- The addProperty operation: requires an object schema, fails when the
name already exists, stores the sub-schema and appends the name to
required when isRequired is true (the source treats an omitted flag as
true). -/
def addProperty (self : JSONSchema) (propertyName : String) (schemaBuilder : JSONSchema)
    (isRequired : Bool) : Except SBError JSONSchema :=
  if !isObjectSchema self then .error (.shapeError "addProperty")
  else
    let props := self.properties.getD []
    if (findProp props propertyName).isSome then .error (.duplicateProperty propertyName)
    else
      let s := self.withProperties (some (setKey props propertyName schemaBuilder))
      if isRequired then
        .ok (s.withRequired (some (self.required.getD [] ++ [propertyName])))
      else .ok s

/-- The replaceProperty operation (with a direct sub-schema argument; the
callback-resolver form resolves to the same assignment): requires an
object schema, filters the name out of required when required is present,
stores the sub-schema, and appends the name to required when isRequired is
true. -/
def replaceProperty (self : JSONSchema) (propertyName : String) (schemaBuilder : JSONSchema)
    (isRequired : Bool) : Except SBError JSONSchema :=
  if !isObjectSchema self then .error (.shapeError "replaceProperty")
  else
    let props := self.properties.getD []
    let required0 : Option (List String) :=
      match self.required with
      | none => none
      | some r => some (r.filter (fun p => decide (p ≠ propertyName)))
    let s := (self.withProperties (some (setKey props propertyName schemaBuilder))).withRequired required0
    if isRequired then
      .ok (s.withRequired (some (required0.getD [] ++ [propertyName])))
    else .ok s

/-- The addAdditionalProperties operation: fails when the
additionalProperties keyword is truthy, otherwise sets it to true or to
the given sub-schema. -/
def addAdditionalProperties (self : JSONSchema) (schemaBuilder : Option JSONSchema) :
    Except SBError JSONSchema :=
  if truthyAddProps self.additionalProperties then
    .error (.shapeError "addAdditionalProperties")
  else
    .ok (self.withAdditionalProperties (some (match schemaBuilder with
      | some b => .inr b
      | none => .inl true)))

/-- Modelled from the spec: utils.setRequired (the utils module is not
under src), per the source comment delete required array if empty and the
spec invariant that required is omitted entirely when empty: store the
list when it is non-empty and remove the keyword otherwise. -/
def setRequired (s : JSONSchema) (required : List String) : JSONSchema :=
  if required.isEmpty then s.withRequired none else s.withRequired (some required)

/-- The setOptionalProperties operation: requires a simple object schema,
removes the given names from required (lodash difference), deletes the
default facet of each demoted property, and stores the new required list
through setRequired. -/
def setOptionalProperties (self : JSONSchema) (names : List String) :
    Except SBError JSONSchema :=
  if !isSimpleObjectSchema self then .error (.shapeError "setOptionalProperties")
  else
    let required := (self.required.getD []).filter (fun p => decide (p ∉ names))
    let s :=
      match self.properties with
      | none => self
      | some ps =>
        self.withProperties (some (ps.map (fun kv =>
          if kv.1 ∈ names then (kv.1, kv.2.clearDflt) else kv)))
    .ok (setRequired s required)

/-- The setRequiredProperties operation: requires a simple object schema
and appends each name not already present to required. -/
def setRequiredProperties (self : JSONSchema) (names : List String) :
    Except SBError JSONSchema :=
  if !isSimpleObjectSchema self then .error (.shapeError "setRequiredProperties")
  else
    .ok (names.foldl (fun s n =>
      let r := s.required.getD []
      if n ∈ r then s.withRequired (some r) else s.withRequired (some (r ++ [n]))) self)

/-- The pickProperties operation: requires an object schema without
combination keywords; keeps the named properties (in the order given,
skipping names without a binding, which the typed interface rules out),
filters required to the kept names and deletes it when the filtered list
is empty, and forces additionalProperties to false. -/
def pickProperties (self : JSONSchema) (names : List String) : Except SBError JSONSchema :=
  if !isObjectSchema self || hasSchemasCombinationKeywords self then
    .error (.shapeError "pickProperties")
  else
    let props := self.properties.getD []
    let propertiesMap := names.foldl (fun acc n =>
      match findProp props n with
      | some v => setKey acc n v
      | none => acc) []
    let required1 : Option (List String) :=
      match self.required with
      | none => none
      | some r => some (r.filter (fun p => decide (p ∈ names)))
    let required2 : Option (List String) :=
      match required1 with
      | some [] => none
      | x => x
    .ok (((self.withProperties (some propertiesMap)).withRequired required2).withAdditionalProperties
      (some (.inl false)))

/-- The renameProperty operation: requires a simple object schema; when the
old name is bound, moves its sub-schema to the new key (JS assignment
followed by delete), and when the old name was required, splices it out of
required and pushes the new name; a no-op when the old name is absent. -/
def renameProperty (self : JSONSchema) (propertyName newPropertyName : String) :
    Except SBError JSONSchema :=
  if !isSimpleObjectSchema self then .error (.shapeError "renameProperty")
  else
    let props := self.properties.getD []
    match findProp props propertyName with
    | some v =>
      let props2 := delKey (setKey props newPropertyName v) propertyName
      let required1 : Option (List String) :=
        match self.required with
        | none => none
        | some r =>
          if propertyName ∈ r then some (r.erase propertyName ++ [newPropertyName])
          else some r
      .ok ((self.withProperties (some props2)).withRequired required1)
    | none => .ok (self.withProperties (some props))

/-- The omitProperties operation: requires a simple object schema and
delegates to pickProperties with the complement of the given names among
the property names. -/
def omitProperties (self : JSONSchema) (names : List String) : Except SBError JSONSchema :=
  if !isSimpleObjectSchema self then .error (.shapeError "omitProperties")
  else
    pickProperties self (((self.properties.getD []).map Prod.fst).filter
      (fun k => decide (k ∉ names)))

/-- One step of mergeProperties over a property of the other schema: a
shared name is replaced by an anyOf of the two sub-schemas and drops out
of required unless required on both sides; a fresh name is appended with
the required status it has on the other side. -/
def mergeStep (req2 : List String) (acc : JSONSchema) (kv : String × JSONSchema) : JSONSchema :=
  let props := acc.properties.getD []
  match findProp props kv.1 with
  | some w =>
    let acc1 := acc.withProperties (some (setKey props kv.1 (anyOfPair w kv.2)))
    if kv.1 ∈ acc.required.getD [] ∧ kv.1 ∉ req2 then
      acc1.withRequired (match acc.required with
        | none => none
        | some r => some (r.filter (fun p => decide (p ≠ kv.1))))
    else acc1
  | none =>
    let acc1 := acc.withProperties (some (setKey props kv.1 kv.2))
    if kv.1 ∈ req2 then
      acc1.withRequired (some (acc.required.getD [] ++ [kv.1]))
    else acc1

/-- The payload computed by a successful mergeProperties call. -/
def mergeResult (self other : JSONSchema) : JSONSchema :=
  match other.properties with
  | none => self
  | some ps2 =>
    ps2.foldl (mergeStep (other.required.getD []))
      (self.withProperties (some (self.properties.getD [])))

/-- The mergeProperties operation: requires the receiver to be a simple
object schema and folds the properties of the other schema into it. -/
def mergeProperties (self other : JSONSchema) : Except SBError JSONSchema :=
  if !isSimpleObjectSchema self then .error (.shapeError "mergeProperties")
  else .ok (mergeResult self other)

/-- Whether a JS value matches a JSON-Schema type name (a Date instance is
a plain JS object for the type check). -/
def matchesTypeName (t : String) : Json → Bool
  | .null => t = "null"
  | .bool _ => t = "boolean"
  | .num v => t = "number" || (t = "integer" &&
      match v with
      | .val q => q.den = 1
      | _ => false)
  | .str _ => t = "string"
  | .date _ => t = "object"
  | .arr _ => t = "array"
  | .obj _ => t = "object"

/-- Whether a JS value matches the type keyword: absent passes, a single
name must match, a list must contain a matching name. -/
def matchesTypeSpec (ts : Option (Sum String (List String))) (d : Json) : Bool :=
  match ts with
  | none => true
  | some (.inl t) => matchesTypeName t d
  | some (.inr l) => l.any (fun t => matchesTypeName t d)

/-- Whether every name in the list is a field of the object. -/
def requiredPresent (r : List String) (fs : JsonFields) : Bool :=
  r.all (fun n => hasField fs n)

mutual
/-- Modelled from the spec: the external validation engine (the opaque
compile-then-validate contract of the spec) applied to a schema and a
value, restricted to the keywords the claims exercise: type, required,
properties, additionalProperties, single-schema items, minItems, and the
custom date-time format recognizer registered by cacheValidationFunction,
which accepts exactly the strings new Date parses to a valid date.
Configuration options beyond the defaults, tuple items and the remaining
keywords are not modelled. -/
def validateData (sc : JSONSchema) : Json → Bool
  | .null => matchesTypeSpec sc.type .null
  | .bool b => matchesTypeSpec sc.type (.bool b)
  | .num v => matchesTypeSpec sc.type (.num v)
  | .str s =>
    matchesTypeSpec sc.type (.str s) &&
      (match sc.format with
       | some f => if f = "date-time" then (jsDateParse s).isSome else true
       | none => true)
  | .date t =>
    matchesTypeSpec sc.type (.date t) && requiredPresent (sc.required.getD []) .fnil
  | .arr xs =>
    matchesTypeSpec sc.type (.arr xs) &&
      (match sc.minItems with
       | some m => decide (m ≤ lengthJL xs)
       | none => true) &&
      (match sc.items with
       | some (.inl isc) => validateAllItems isc xs
       | _ => true)
  | .obj fs =>
    matchesTypeSpec sc.type (.obj fs) &&
      requiredPresent (sc.required.getD []) fs &&
      validateFieldsData sc fs

/-- Every element of the list validates against the items schema. -/
def validateAllItems (isc : JSONSchema) : JsonList → Bool
  | .jnil => true
  | .jcons x tl => validateData isc x && validateAllItems isc tl

/-- Every field validates against its property schema, and fields without
one are governed by additionalProperties. -/
def validateFieldsData (sc : JSONSchema) : JsonFields → Bool
  | .fnil => true
  | .fcons k v tl =>
    (match findProp (sc.properties.getD []) k with
     | some psc => validateData psc v
     | none =>
       match sc.additionalProperties with
       | some (.inl false) => false
       | some (.inr asc) => validateData asc v
       | _ => true) &&
    validateFieldsData sc tl
end

mutual
/-- The transformDatesForValidation pass: Date values become their
toISOString rendering; arrays and objects are rebuilt recursively; other
values pass through. -/
def transformDatesForValidation : Json → Json
  | .date t => .str (toISOString t)
  | .arr xs => .arr (transformDatesForValidationL xs)
  | .obj fs => .obj (transformDatesForValidationF fs)
  | d => d

/-- transformDatesForValidation over the elements of an array. -/
def transformDatesForValidationL : JsonList → JsonList
  | .jnil => .jnil
  | .jcons x tl => .jcons (transformDatesForValidation x) (transformDatesForValidationL tl)

/-- transformDatesForValidation over the fields of an object. -/
def transformDatesForValidationF : JsonFields → JsonFields
  | .fnil => .fnil
  | .fcons k v tl => .fcons k (transformDatesForValidation v) (transformDatesForValidationF tl)
end

/-- The validate operation: converts Date values to their wire strings and
runs the cached compiled validator (validateData); raises a
ValidationError when validation fails. -/
def validate (sc : JSONSchema) (o : Json) : Except SBError Unit :=
  if validateData sc (transformDatesForValidation o) then .ok () else .error .validationFailed

/-- The array wrapper compiled by cacheListValidationFunction, with the
schema reference resolved inline: an array of the document schema with
minItems 1. -/
def listWrapSchema (sc : JSONSchema) : JSONSchema :=
  .mk (some (.inl "array")) none none none (some (.inl sc)) none (some 1)
    none none none none none

/-- The validateList operation: converts Date values to wire strings in
every element and validates the list against the array wrapper schema. -/
def validateList (sc : JSONSchema) (list : JsonList) : Except SBError Unit :=
  if validateData (listWrapSchema sc) (.arr (transformDatesForValidationL list)) then .ok ()
  else .error .validationFailed

/-- The items sub-schema handed to the element recursion of the coercion
passes: present only when the items keyword holds a single schema. -/
def itemSchemaOf : Option JSONSchema → Option JSONSchema
  | some sc =>
    (match sc.items with
     | some (.inl isc) => some isc
     | _ => none)
  | none => none

/-- The property sub-schema handed to the field recursion of the coercion
passes. -/
def propSchemaOf (osc : Option JSONSchema) (k : String) : Option JSONSchema :=
  match osc with
  | some sc => findProp (sc.properties.getD []) k
  | none => none

/-- Whether the type keyword of the schema includes number or integer
(an absent keyword yields a singleton list holding undefined in the
source, which includes neither). -/
def isNumberField (sc : JSONSchema) : Bool :=
  match sc.type with
  | some (.inl t) => t = "number" || t = "integer"
  | some (.inr l) => decide ("number" ∈ l) || decide ("integer" ∈ l)
  | none => false

mutual
/-- The transformStringToNumber pass of parse: a string under a schema
whose type includes number or integer and whose Number conversion is not
NaN becomes that number, floored when the type keyword is exactly the
string integer; arrays recurse with the single items schema when present;
objects recurse with each property schema; other values pass through. A
Date value falls into the object branch of the source and is rebuilt as an
empty object; dates cannot reach this pass from parse, which runs it on a
JSON deep copy. -/
def transformStringToNumber : Json → Option JSONSchema → Json
  | .null, _ => .null
  | .str s, some sc =>
    if isNumberField sc then
      match jsNumber s with
      | .nan => .str s
      | v => .num (if sc.type = some (.inl "integer") then jsFloor v else v)
    else .str s
  | .str s, none => .str s
  | .arr xs, osc => .arr (transformStringToNumberL xs (itemSchemaOf osc))
  | .obj fs, osc => .obj (transformStringToNumberF fs osc)
  | .date _, _ => .obj .fnil
  | d, _ => d

/-- transformStringToNumber over the elements of an array, every element
under the same items schema. -/
def transformStringToNumberL : JsonList → Option JSONSchema → JsonList
  | .jnil, _ => .jnil
  | .jcons x tl, isc => .jcons (transformStringToNumber x isc) (transformStringToNumberL tl isc)

/-- transformStringToNumber over the fields of an object, each field under
its property schema from the parent. -/
def transformStringToNumberF : JsonFields → Option JSONSchema → JsonFields
  | .fnil, _ => .fnil
  | .fcons k v tl, osc =>
    .fcons k (transformStringToNumber v (propSchemaOf osc k)) (transformStringToNumberF tl osc)
end

/-- The ISO 8601 extended pattern tested by transformISOStringsToDate
(digits only, seconds required, Z or a signed hour-minute offset). -/
def isoDatePattern (s : String) : Bool :=
  match readD4 s.toList with
  | some (_, '-' :: r1) =>
    (match readD2 r1 with
     | some (_, '-' :: r2) =>
       (match readD2 r2 with
        | some (_, 'T' :: r3) =>
          (match readD2 r3 with
           | some (_, ':' :: r4) =>
             (match readD2 r4 with
              | some (_, ':' :: r5) =>
                (match readD2 r5 with
                 | some (_, rest) =>
                   (match rest with
                    | '.' :: fr =>
                      let p := takeDigits fr
                      !p.1.isEmpty && (readTimezone p.2).isSome
                    | _ => (readTimezone rest).isSome)
                 | none => false)
              | _ => false)
           | _ => false)
        | _ => false)
     | _ => false)
  | _ => false

/-- Whether the schema marks a string value as a date-time field: type is
string or includes string, and format is date-time. -/
def isDateTimeField : Option JSONSchema → Bool
  | some sc =>
    (match sc.type with
     | some (.inl t) => t = "string"
     | some (.inr l) => decide ("string" ∈ l)
     | none => false) &&
    (match sc.format with
     | some f => f = "date-time"
     | none => false)
  | none => false

mutual
/-- The transformISOStringsToDate pass of parse: a string that is a
date-time field by schema or matches the ISO pattern becomes the Date it
parses to when that date is valid, and stays a string otherwise; arrays
recurse with the single items schema or an empty schema; objects recurse
with each property schema; null and Date values pass through. -/
def transformISOStringsToDate : Json → Option JSONSchema → Json
  | .null, _ => .null
  | .date t, _ => .date t
  | .str s, osc =>
    if isDateTimeField osc || isoDatePattern s then
      match jsDateParse s with
      | some t => .date t
      | none => .str s
    else .str s
  | .arr xs, osc =>
    .arr (transformISOStringsToDateL xs (some ((itemSchemaOf osc).getD JSONSchema.empty)))
  | .obj fs, osc => .obj (transformISOStringsToDateF fs osc)
  | d, _ => d

/-- transformISOStringsToDate over the elements of an array. -/
def transformISOStringsToDateL : JsonList → Option JSONSchema → JsonList
  | .jnil, _ => .jnil
  | .jcons x tl, isc =>
    .jcons (transformISOStringsToDate x isc) (transformISOStringsToDateL tl isc)

/-- transformISOStringsToDate over the fields of an object. -/
def transformISOStringsToDateF : JsonFields → Option JSONSchema → JsonFields
  | .fnil, _ => .fnil
  | .fcons k v tl, osc =>
    .fcons k (transformISOStringsToDate v (propSchemaOf osc k)) (transformISOStringsToDateF tl osc)
end

mutual
/-- The JSON round trip JSON.parse of JSON.stringify used by parse and
parseList to copy the input: plain JSON values are rebuilt unchanged,
Date values serialize to their toISOString rendering, and NaN and the
infinities serialize to null. -/
def jsonDeepCopy : Json → Json
  | .null => .null
  | .bool b => .bool b
  | .num v =>
    (match v with
     | .val q => .num (.val q)
     | _ => .null)
  | .str s => .str s
  | .date t => .str (toISOString t)
  | .arr xs => .arr (jsonDeepCopyL xs)
  | .obj fs => .obj (jsonDeepCopyF fs)

/-- jsonDeepCopy over the elements of an array. -/
def jsonDeepCopyL : JsonList → JsonList
  | .jnil => .jnil
  | .jcons x tl => .jcons (jsonDeepCopy x) (jsonDeepCopyL tl)

/-- jsonDeepCopy over the fields of an object. -/
def jsonDeepCopyF : JsonFields → JsonFields
  | .fnil => .fnil
  | .fcons k v tl => .fcons k (jsonDeepCopy v) (jsonDeepCopyF tl)
end

mutual
/-- Whether a value is plain JSON: no Date values and no NaN or infinite
numbers anywhere (exactly the values on which the JSON round trip is the
identity). -/
def plainJson : Json → Bool
  | .null => true
  | .bool _ => true
  | .num v =>
    (match v with
     | .val _ => true
     | _ => false)
  | .str _ => true
  | .date _ => false
  | .arr xs => plainJsonL xs
  | .obj fs => plainJsonF fs

/-- plainJson over the elements of an array. -/
def plainJsonL : JsonList → Bool
  | .jnil => true
  | .jcons x tl => plainJson x && plainJsonL tl

/-- plainJson over the fields of an object. -/
def plainJsonF : JsonFields → Bool
  | .fnil => true
  | .fcons _ v tl => plainJson v && plainJsonF tl
end

/-- The three passes of parse applied to a value directly, without the
protective deep copy: string-to-number coercion, validation, then
wire-string-to-date coercion. -/
def parsePasses (sc : JSONSchema) (data : Json) : Except SBError Json :=
  let transformedData := transformStringToNumber data (some sc)
  match validate sc transformedData with
  | .ok _ => .ok (transformISOStringsToDate transformedData (some sc))
  | .error e => .error e

/-- The parse operation: deep-copies the input, coerces numeric strings,
validates, and converts wire date strings to Date values. -/
def parse (sc : JSONSchema) (data : Json) : Except SBError Json :=
  parsePasses sc (jsonDeepCopy data)

/-- Map a function over a value list. -/
def mapJL (f : Json → Json) : JsonList → JsonList
  | .jnil => .jnil
  | .jcons x tl => .jcons (f x) (mapJL f tl)

/-- The parseList operation: deep-copies the list, validates it through the
array wrapper schema, and converts wire date strings in each element; it
does not run the numeric-coercion pass. -/
def parseList (sc : JSONSchema) (dataList : JsonList) : Except SBError JsonList :=
  let dataCopy := mapJL jsonDeepCopy dataList
  match validateList sc dataCopy with
  | .ok _ => .ok (mapJL (fun item => transformISOStringsToDate item (some sc)) dataCopy)
  | .error e => .error e

/-- The recognized validation-engine options (the globalAJVConfig shape). -/
structure AjvOptions where
  coerceTypes : Bool
  removeAdditional : Bool
  useDefaults : Bool
  strict : Bool
  allErrors : Bool
deriving DecidableEq

/-- A configuration argument: each option may be given or omitted (the
object-spread source of truth keeps the old value for omitted keys). -/
structure AjvOptionsPatch where
  coerceTypes : Option Bool
  removeAdditional : Option Bool
  useDefaults : Option Bool
  strict : Option Bool
  allErrors : Option Bool
deriving DecidableEq

/-- The object spread of a patch over a configuration: given keys win. -/
def applyPatch (g : AjvOptions) (p : AjvOptionsPatch) : AjvOptions where
  coerceTypes := p.coerceTypes.getD g.coerceTypes
  removeAdditional := p.removeAdditional.getD g.removeAdditional
  useDefaults := p.useDefaults.getD g.useDefaults
  strict := p.strict.getD g.strict
  allErrors := p.allErrors.getD g.allErrors

/-- The patch that specifies nothing. -/
def emptyPatch : AjvOptionsPatch := ⟨none, none, none, none, none⟩

/-- The initial globalAJVConfig of SchemaBuilder. -/
def defaultGlobalAJVConfig : AjvOptions :=
  ⟨false, false, true, false, true⟩

/-- The process-wide mutable state of SchemaBuilder: the global
configuration and its version counter. -/
structure GlobalConfigState where
  globalAJVConfig : AjvOptions
  globalAJVConfigVersionNumber : Nat
deriving DecidableEq

/-- The state at process start: the default configuration at version 0. -/
def initialGlobalConfigState : GlobalConfigState :=
  ⟨defaultGlobalAJVConfig, 0⟩

/-- The setGlobalValidationConfig operation: spread the partial
configuration over the global one and increment the version counter. -/
def setGlobalValidationConfig (config : AjvOptionsPatch) (g : GlobalConfigState) :
    GlobalConfigState :=
  ⟨applyPatch g.globalAJVConfig config, g.globalAJVConfigVersionNumber + 1⟩

/-- A compiled validation function, modelled as the pair it is a pure
function of: the registered schema and the configuration the engine was
constructed with. -/
structure CompiledValidator where
  compiledSchema : JSONSchema
  compiledConfig : AjvOptions

/-- The per-document cache slot: the compiled validation function, if any,
and the global version it was compiled against. -/
structure ValidationCacheState where
  validationFunction : Option CompiledValidator
  localValidationFunctionVersionNumber : Nat

/-- A fresh document cache: no compiled function, recorded version 0. -/
def initialCacheState : ValidationCacheState := ⟨none, 0⟩

/-- The ajvValidationConfig getter: the document-local configuration spread
over the current global configuration. -/
def ajvValidationConfig (g : GlobalConfigState) (validationConfig : Option AjvOptionsPatch) :
    AjvOptions :=
  applyPatch g.globalAJVConfig (validationConfig.getD emptyPatch)

/-- The cache state holding a validator freshly compiled against the
current global configuration. -/
def freshCompiled (g : GlobalConfigState) (sc : JSONSchema)
    (validationConfig : Option AjvOptionsPatch) : ValidationCacheState :=
  ⟨some ⟨sc, ajvValidationConfig g validationConfig⟩, g.globalAJVConfigVersionNumber⟩

/-- The cacheValidationFunction operation on the cache slot of a document
with the given schema and local configuration: recompile when no function
is cached or the recorded version differs from the global version,
otherwise keep the slot unchanged. -/
def cacheValidationFunction (g : GlobalConfigState) (sc : JSONSchema)
    (validationConfig : Option AjvOptionsPatch) (d : ValidationCacheState) :
    ValidationCacheState :=
  if d.validationFunction.isNone ∨
      d.localValidationFunctionVersionNumber ≠ g.globalAJVConfigVersionNumber then
    freshCompiled g sc validationConfig
  else d

mutual
/-- The string-to-number coercion pass as the specification words it (with
the two amendments the code forces: Number conversions that are not NaN
are accepted, and the integer case floors): a string under a schema whose
type includes number or integer becomes its parsed number, floored when
the type is exactly the string integer; recursion goes into array items
through the single items schema and into object properties through each
property schema; missing schema information leaves the data untouched. -/
def coerceStringToNumber (sc : JSONSchema) : Json → Json
  | .str s =>
    if isNumberField sc then
      match jsNumber s with
      | .nan => .str s
      | v => .num (if sc.type = some (.inl "integer") then jsFloor v else v)
    else .str s
  | .arr xs =>
    (match sc.items with
     | some (.inl isc) => .arr (coerceStringToNumberL isc xs)
     | _ => .arr xs)
  | .obj fs => .obj (coerceStringToNumberF sc fs)
  | d => d

/-- The specification coercion over array elements, all under the items
schema. -/
def coerceStringToNumberL (isc : JSONSchema) : JsonList → JsonList
  | .jnil => .jnil
  | .jcons x tl => .jcons (coerceStringToNumber isc x) (coerceStringToNumberL isc tl)

/-- The specification coercion over object fields: a field with a property
schema is coerced under it, a field without one is untouched. -/
def coerceStringToNumberF (sc : JSONSchema) : JsonFields → JsonFields
  | .fnil => .fnil
  | .fcons k v tl =>
    .fcons k
      (match findProp (sc.properties.getD []) k with
       | some psc => coerceStringToNumber psc v
       | none => v)
      (coerceStringToNumberF sc tl)
end

/-- The required-list well-formedness the invariant claims speak about,
stated against the property names: when the required keyword is present,
its list is duplicate-free and every listed name is a property name. -/
def RequiredNodupSub (s : JSONSchema) : Prop :=
  ∀ r, s.required = some r → r.Nodup ∧ ∀ n ∈ r, n ∈ propertyNamesOf s

/-- When the required keyword is present, its list is non-empty (an empty
list is omitted instead). -/
def RequiredNonempty (s : JSONSchema) : Prop :=
  ∀ r, s.required = some r → r ≠ []

/-- The full required-list invariant: duplicate-free, subset of the
property names, and never present as an empty list. -/
def RequiredWf (s : JSONSchema) : Prop := RequiredNodupSub s ∧ RequiredNonempty s

/-- Lift a predicate over the success payload of an operation; a shape
error satisfies it vacuously. -/
def exceptOk (P : JSONSchema → Prop) : Except SBError JSONSchema → Prop
  | .ok r => P r
  | .error _ => True

/-! Helper lemmas. -/

theorem withAdditionalProperties_additionalProperties (s : JSONSchema)
    (x : Option (Sum Bool JSONSchema)) :
    (s.withAdditionalProperties x).additionalProperties = x := by
  cases s
  rfl

theorem findProp_cons_self (k : String) (v : JSONSchema) (tl : List (String × JSONSchema)) :
    findProp ((k, v) :: tl) k = some v := by
  simp [findProp]

/-! Claim theorems. -/

/-- C1: cacheValidationFunction recompiles if and only if no cached
function exists or its recorded version differs from the global version,
and otherwise returns the cache unchanged; setGlobalValidationConfig
merges the patch into the global configuration and increments the version
counter, after which cacheValidationFunction on any document whose
recorded version does not exceed the old global version recompiles. -/
theorem cacheValidationFunction_protocol (p : AjvOptionsPatch) (g : GlobalConfigState)
    (sc : JSONSchema) (lc : Option AjvOptionsPatch) (d : ValidationCacheState)
    (hv : d.localValidationFunctionVersionNumber ≤ g.globalAJVConfigVersionNumber) :
    (cacheValidationFunction g sc lc d = d ↔
      (d.validationFunction.isSome = true ∧
        d.localValidationFunctionVersionNumber = g.globalAJVConfigVersionNumber))
    ∧ ((d.validationFunction = none ∨
        d.localValidationFunctionVersionNumber ≠ g.globalAJVConfigVersionNumber) →
        cacheValidationFunction g sc lc d = freshCompiled g sc lc)
    ∧ (setGlobalValidationConfig p g).globalAJVConfig = applyPatch g.globalAJVConfig p
    ∧ (setGlobalValidationConfig p g).globalAJVConfigVersionNumber
        = g.globalAJVConfigVersionNumber + 1
    ∧ cacheValidationFunction (setGlobalValidationConfig p g) sc lc d
        = freshCompiled (setGlobalValidationConfig p g) sc lc := by
  refine ⟨?_, ?_, rfl, rfl, ?_⟩
  · by_cases hc : (d.validationFunction.isNone ∨
        d.localValidationFunctionVersionNumber ≠ g.globalAJVConfigVersionNumber)
    · have hres : cacheValidationFunction g sc lc d = freshCompiled g sc lc := by
        unfold cacheValidationFunction
        rw [if_pos hc]
      rw [hres]
      constructor
      · intro he
        exact ⟨by rw [← he]; rfl, by rw [← he]; rfl⟩
      · rintro ⟨hs, hveq⟩
        exfalso
        rcases hc with hn | hne
        · rw [Option.isNone_iff_eq_none] at hn
          rw [hn] at hs
          simp at hs
        · exact hne hveq
    · have hres : cacheValidationFunction g sc lc d = d := by
        unfold cacheValidationFunction
        rw [if_neg hc]
      rw [hres]
      push_neg at hc
      simp only [true_iff]
      refine ⟨?_, hc.2⟩
      cases h2 : d.validationFunction with
      | none => exact absurd (by simp [h2]) hc.1
      | some x => rfl
  · intro hr
    unfold cacheValidationFunction
    rw [if_pos]
    rcases hr with hn | hne
    · exact Or.inl (by simp [hn])
    · exact Or.inr hne
  · unfold cacheValidationFunction
    rw [if_pos]
    right
    simp only [setGlobalValidationConfig]
    omega

theorem cacheValidationFunction_protocol_witness :
    (cacheValidationFunction initialGlobalConfigState (emptySchema false) none initialCacheState
        = initialCacheState ↔
      (initialCacheState.validationFunction.isSome = true ∧
        initialCacheState.localValidationFunctionVersionNumber
          = initialGlobalConfigState.globalAJVConfigVersionNumber))
    ∧ ((initialCacheState.validationFunction = none ∨
        initialCacheState.localValidationFunctionVersionNumber
          ≠ initialGlobalConfigState.globalAJVConfigVersionNumber) →
        cacheValidationFunction initialGlobalConfigState (emptySchema false) none initialCacheState
          = freshCompiled initialGlobalConfigState (emptySchema false) none)
    ∧ (setGlobalValidationConfig emptyPatch initialGlobalConfigState).globalAJVConfig
        = applyPatch initialGlobalConfigState.globalAJVConfig emptyPatch
    ∧ (setGlobalValidationConfig emptyPatch initialGlobalConfigState).globalAJVConfigVersionNumber
        = initialGlobalConfigState.globalAJVConfigVersionNumber + 1
    ∧ cacheValidationFunction (setGlobalValidationConfig emptyPatch initialGlobalConfigState)
          (emptySchema false) none initialCacheState
        = freshCompiled (setGlobalValidationConfig emptyPatch initialGlobalConfigState)
          (emptySchema false) none :=
  cacheValidationFunction_protocol emptyPatch initialGlobalConfigState (emptySchema false)
    none initialCacheState (Nat.le_refl 0)

/-- C6 counterexample: the empty object schema carries additionalProperties
with the value false, yet addAdditionalProperties on it does not raise, so
raising is not equivalent to additionalProperties having a value. -/
theorem addAdditionalProperties_false_value_no_raise :
    (emptySchema false).additionalProperties = some (.inl false)
    ∧ isErrorE (addAdditionalProperties (emptySchema false) none) = false :=
  ⟨rfl, rfl⟩

/-- C6 (amended): addAdditionalProperties raises a ShapeError if and only
if the receiver additionalProperties keyword is truthy (true or a
sub-document; absent or false does not raise); when it does not raise it
returns the document with additionalProperties set to true or to the given
sub-document, and a second call on that result raises. -/
theorem addAdditionalProperties_raises_iff_truthy (s : JSONSchema) (sb sb2 : Option JSONSchema) :
    isErrorE (addAdditionalProperties s sb) = truthyAddProps s.additionalProperties
    ∧ (truthyAddProps s.additionalProperties = false →
        addAdditionalProperties s sb
          = .ok (s.withAdditionalProperties (some (match sb with
              | some b => .inr b
              | none => .inl true)))
        ∧ isErrorE (addAdditionalProperties
            (s.withAdditionalProperties (some (match sb with
              | some b => .inr b
              | none => .inl true))) sb2) = true) := by
  constructor
  · by_cases h : truthyAddProps s.additionalProperties
    · simp [addAdditionalProperties, h, isErrorE]
    · simp only [Bool.not_eq_true] at h
      simp [addAdditionalProperties, h, isErrorE]
  · intro h
    refine ⟨by simp [addAdditionalProperties, h], ?_⟩
    cases sb with
    | none =>
      simp [addAdditionalProperties, withAdditionalProperties_additionalProperties,
        truthyAddProps, isErrorE]
    | some b =>
      simp [addAdditionalProperties, withAdditionalProperties_additionalProperties,
        truthyAddProps, isErrorE]

theorem addAdditionalProperties_raises_iff_truthy_witness :
    isErrorE (addAdditionalProperties (emptySchema false) none) =
      truthyAddProps (emptySchema false).additionalProperties
    ∧ (addAdditionalProperties (emptySchema false) none
        = .ok ((emptySchema false).withAdditionalProperties (some (.inl true)))
      ∧ isErrorE (addAdditionalProperties
          ((emptySchema false).withAdditionalProperties (some (.inl true))) none) = true) :=
  ⟨(addAdditionalProperties_raises_iff_truthy (emptySchema false) none none).1,
    (addAdditionalProperties_raises_iff_truthy (emptySchema false) none none).2 rfl⟩

/-- C7: for every document, validateList and parseList on the empty list
raise a ValidationError, the compiled list form being an array wrapper
with minItems 1. -/
theorem validateList_empty_raises (sc : JSONSchema) :
    validateList sc .jnil = .error .validationFailed
    ∧ parseList sc .jnil = .error .validationFailed
    ∧ (listWrapSchema sc).minItems = some 1 :=
  ⟨rfl, rfl, rfl⟩

/-- C9: on a simple object schema, omitProperties of a name list equals
pickProperties of the complement of those names among the property
names. -/
theorem omitProperties_eq_pickProperties_complement (D : JSONSchema) (K : List String)
    (h : isSimpleObjectSchema D = true) :
    omitProperties D K
      = pickProperties D ((propertyNamesOf D).filter (fun k => decide (k ∉ K))) := by
  simp [omitProperties, h, propertyNamesOf]

theorem omitProperties_eq_pickProperties_complement_witness :
    isSimpleObjectSchema
        (objectSchema [("a", stringSchema false, true), ("b", numberSchema false, false)] false)
      = true
    ∧ omitProperties
        (objectSchema [("a", stringSchema false, true), ("b", numberSchema false, false)] false)
        ["a"]
      = pickProperties
        (objectSchema [("a", stringSchema false, true), ("b", numberSchema false, false)] false)
        ((propertyNamesOf
          (objectSchema [("a", stringSchema false, true), ("b", numberSchema false, false)] false)).filter
          (fun k => decide (k ∉ ["a"]))) :=
  ⟨rfl, omitProperties_eq_pickProperties_complement
    (objectSchema [("a", stringSchema false, true), ("b", numberSchema false, false)] false)
    ["a"] rfl⟩

mutual
theorem jsonDeepCopy_id : ∀ (d : Json), plainJson d = true → jsonDeepCopy d = d
  | .null, _ => rfl
  | .bool _, _ => rfl
  | .num v, h => by
    cases v with
    | val q => rfl
    | nan => exact absurd h (by simp [plainJson])
    | inf b => exact absurd h (by simp [plainJson])
  | .str _, _ => rfl
  | .date _, h => by simp [plainJson] at h
  | .arr xs, h => by
    have h2 : plainJsonL xs = true := h
    show Json.arr (jsonDeepCopyL xs) = Json.arr xs
    rw [jsonDeepCopyL_id xs h2]
  | .obj fs, h => by
    have h2 : plainJsonF fs = true := h
    show Json.obj (jsonDeepCopyF fs) = Json.obj fs
    rw [jsonDeepCopyF_id fs h2]

theorem jsonDeepCopyL_id : ∀ (l : JsonList), plainJsonL l = true → jsonDeepCopyL l = l
  | .jnil, _ => rfl
  | .jcons x tl, h => by
    have h2 : (plainJson x && plainJsonL tl) = true := h
    rw [Bool.and_eq_true] at h2
    show JsonList.jcons (jsonDeepCopy x) (jsonDeepCopyL tl) = JsonList.jcons x tl
    rw [jsonDeepCopy_id x h2.1, jsonDeepCopyL_id tl h2.2]

theorem jsonDeepCopyF_id : ∀ (l : JsonFields), plainJsonF l = true → jsonDeepCopyF l = l
  | .fnil, _ => rfl
  | .fcons k v tl, h => by
    have h2 : (plainJson v && plainJsonF tl) = true := h
    rw [Bool.and_eq_true] at h2
    show JsonFields.fcons k (jsonDeepCopy v) (jsonDeepCopyF tl) = JsonFields.fcons k v tl
    rw [jsonDeepCopy_id v h2.1, jsonDeepCopyF_id tl h2.2]
end

mutual
theorem transformStringToNumber_eq_coerce : ∀ (d : Json), plainJson d = true →
    (∀ sc : JSONSchema, transformStringToNumber d (some sc) = coerceStringToNumber sc d)
    ∧ transformStringToNumber d none = d
  | .null, _ => ⟨fun _ => rfl, rfl⟩
  | .bool _, _ => ⟨fun _ => rfl, rfl⟩
  | .num _, _ => ⟨fun _ => rfl, rfl⟩
  | .str _, _ => ⟨fun _ => rfl, rfl⟩
  | .date _, h => by simp [plainJson] at h
  | .arr xs, h => by
    have h2 : plainJsonL xs = true := h
    have hL := transformStringToNumberL_eq_coerce xs h2
    constructor
    · intro sc
      show Json.arr (transformStringToNumberL xs (itemSchemaOf (some sc)))
        = coerceStringToNumber sc (.arr xs)
      cases hit : sc.items with
      | none =>
        have hi : itemSchemaOf (some sc) = none := by simp [itemSchemaOf, hit]
        rw [hi, hL.2]
        simp [coerceStringToNumber, hit]
      | some it =>
        cases it with
        | inl isc =>
          have hi : itemSchemaOf (some sc) = some isc := by simp [itemSchemaOf, hit]
          rw [hi, hL.1 isc]
          simp [coerceStringToNumber, hit]
        | inr tup =>
          have hi : itemSchemaOf (some sc) = none := by simp [itemSchemaOf, hit]
          rw [hi, hL.2]
          simp [coerceStringToNumber, hit]
    · show Json.arr (transformStringToNumberL xs (itemSchemaOf none)) = Json.arr xs
      rw [show itemSchemaOf none = none from rfl, hL.2]
  | .obj fs, h => by
    have h2 : plainJsonF fs = true := h
    have hF := transformStringToNumberF_eq_coerce fs h2
    constructor
    · intro sc
      show Json.obj (transformStringToNumberF fs (some sc)) = Json.obj (coerceStringToNumberF sc fs)
      rw [hF.1 sc]
    · show Json.obj (transformStringToNumberF fs none) = Json.obj fs
      rw [hF.2]

theorem transformStringToNumberL_eq_coerce : ∀ (l : JsonList), plainJsonL l = true →
    (∀ isc : JSONSchema, transformStringToNumberL l (some isc) = coerceStringToNumberL isc l)
    ∧ transformStringToNumberL l none = l
  | .jnil, _ => ⟨fun _ => rfl, rfl⟩
  | .jcons x tl, h => by
    have h2 : (plainJson x && plainJsonL tl) = true := h
    rw [Bool.and_eq_true] at h2
    have hx := transformStringToNumber_eq_coerce x h2.1
    have htl := transformStringToNumberL_eq_coerce tl h2.2
    constructor
    · intro isc
      show JsonList.jcons (transformStringToNumber x (some isc))
          (transformStringToNumberL tl (some isc))
        = JsonList.jcons (coerceStringToNumber isc x) (coerceStringToNumberL isc tl)
      rw [hx.1 isc, htl.1 isc]
    · show JsonList.jcons (transformStringToNumber x none) (transformStringToNumberL tl none)
        = JsonList.jcons x tl
      rw [hx.2, htl.2]

theorem transformStringToNumberF_eq_coerce : ∀ (l : JsonFields), plainJsonF l = true →
    (∀ sc : JSONSchema, transformStringToNumberF l (some sc) = coerceStringToNumberF sc l)
    ∧ transformStringToNumberF l none = l
  | .fnil, _ => ⟨fun _ => rfl, rfl⟩
  | .fcons k v tl, h => by
    have h2 : (plainJson v && plainJsonF tl) = true := h
    rw [Bool.and_eq_true] at h2
    have hv := transformStringToNumber_eq_coerce v h2.1
    have htl := transformStringToNumberF_eq_coerce tl h2.2
    constructor
    · intro sc
      show JsonFields.fcons k (transformStringToNumber v (propSchemaOf (some sc) k))
          (transformStringToNumberF tl (some sc))
        = JsonFields.fcons k _ (coerceStringToNumberF sc tl)
      rw [htl.1 sc]
      cases hfp : findProp (sc.properties.getD []) k with
      | none =>
        have hp : propSchemaOf (some sc) k = none := by simp [propSchemaOf, hfp]
        rw [hp, hv.2]
      | some psc =>
        have hp : propSchemaOf (some sc) k = some psc := by simp [propSchemaOf, hfp]
        rw [hp, hv.1 psc]
    · show JsonFields.fcons k (transformStringToNumber v (propSchemaOf none k))
          (transformStringToNumberF tl none)
        = JsonFields.fcons k v tl
      rw [show propSchemaOf none k = none from rfl, hv.2, htl.2]
end

/-- C2 counterexample: under an integer schema the numeric string -89.12 is
coerced with Math.floor to -90, not truncated toward zero to -89 as the
claim states. -/
theorem transformStringToNumber_floor_counterexample :
    transformStringToNumber (.str "-89.12") (some (integerSchema false)) = .num (.val (-90))
    ∧ Json.num (.val (-90)) ≠ Json.num (.val (-89)) := by
  constructor
  · rfl
  · intro h
    injection h with h2
    injection h2 with h3
    exact absurd h3 (by norm_num)

/-- C2 (amended): the string-to-number coercion pass of parse replaces a
string whose schema type includes number or integer and whose Number
conversion is not NaN by the parsed number, floored (toward negative
infinity) when the type is exactly the string integer, leaves every other
value untouched, recurses through single items schemas and property
schemas, and leaves data without schema information untouched: on plain
JSON data the pass equals the specification-side coercion, and with no
schema it is the identity. -/
theorem transformStringToNumber_spec (sc : JSONSchema) (d : Json) (h : plainJson d = true) :
    transformStringToNumber d (some sc) = coerceStringToNumber sc d
    ∧ transformStringToNumber d none = d :=
  ⟨(transformStringToNumber_eq_coerce d h).1 sc, (transformStringToNumber_eq_coerce d h).2⟩

theorem transformStringToNumber_spec_witness :
    plainJson (Json.obj (.fcons "n" (.str "45.67") (.fcons "i" (.str "89.12") .fnil))) = true
    ∧ (transformStringToNumber
          (Json.obj (.fcons "n" (.str "45.67") (.fcons "i" (.str "89.12") .fnil)))
          (some (objectSchema
            [("n", numberSchema false, true), ("i", integerSchema false, true)] false))
        = coerceStringToNumber
            (objectSchema
              [("n", numberSchema false, true), ("i", integerSchema false, true)] false)
            (Json.obj (.fcons "n" (.str "45.67") (.fcons "i" (.str "89.12") .fnil)))
      ∧ transformStringToNumber
          (Json.obj (.fcons "n" (.str "45.67") (.fcons "i" (.str "89.12") .fnil))) none
        = Json.obj (.fcons "n" (.str "45.67") (.fcons "i" (.str "89.12") .fnil))) :=
  ⟨rfl, transformStringToNumber_spec
    (objectSchema [("n", numberSchema false, true), ("i", integerSchema false, true)] false)
    (Json.obj (.fcons "n" (.str "45.67") (.fcons "i" (.str "89.12") .fnil))) rfl⟩

/-- C8: parse operates on a deep copy of its input: on plain JSON data the
JSON round trip copy equals the input value, so parse coincides with the
three passes applied to the caller value directly, and in this pure
embedding the caller value is unchanged by construction. -/
theorem parse_deep_copies (sc : JSONSchema) (d : Json) (h : plainJson d = true) :
    jsonDeepCopy d = d ∧ parse sc d = parsePasses sc d := by
  have hc := jsonDeepCopy_id d h
  refine ⟨hc, ?_⟩
  show parsePasses sc (jsonDeepCopy d) = parsePasses sc d
  rw [hc]

theorem parse_deep_copies_witness :
    plainJson (Json.obj (.fcons "a" (.num (.val 1)) .fnil)) = true
    ∧ (jsonDeepCopy (Json.obj (.fcons "a" (.num (.val 1)) .fnil))
        = Json.obj (.fcons "a" (.num (.val 1)) .fnil)
      ∧ parse (emptySchema false) (Json.obj (.fcons "a" (.num (.val 1)) .fnil))
        = parsePasses (emptySchema false) (Json.obj (.fcons "a" (.num (.val 1)) .fnil))) :=
  ⟨rfl, parse_deep_copies (emptySchema false) (Json.obj (.fcons "a" (.num (.val 1)) .fnil)) rfl⟩

/-- C10: under a nullable integer node, whose type is the list of integer
and null rather than the exact string integer, a numeric string is
converted without truncation; on the document with one such required
property, parsing the value 3.9 therefore fails integer validation and
parse raises a ValidationError. -/
theorem nullable_integer_string_not_truncated (s : String) (q : ℚ) (h : jsNumber s = .val q) :
    transformStringToNumber (.str s) (some (integerSchema true)) = .num (.val q)
    ∧ parse (objectSchema [("v", integerSchema true, true)] false)
        (.obj (.fcons "v" (.str "3.9") .fnil)) = .error .validationFailed := by
  constructor
  · have h1 : isNumberField (integerSchema true) = true := rfl
    have h2 : ¬((integerSchema true).type = some (Sum.inl "integer")) := by decide
    simp only [transformStringToNumber, h1, if_true, h]
    rw [if_neg h2]
  · rfl

theorem nullable_integer_string_not_truncated_witness :
    jsNumber "3.9" = .val (mkRat 39 10)
    ∧ (transformStringToNumber (.str "3.9") (some (integerSchema true)) = .num (.val (mkRat 39 10))
      ∧ parse (objectSchema [("v", integerSchema true, true)] false)
          (.obj (.fcons "v" (.str "3.9") .fnil)) = .error .validationFailed) :=
  ⟨by decide, nullable_integer_string_not_truncated "3.9" (mkRat 39 10) (by decide)⟩

theorem findProp_eq_none_iff (l : List (String × JSONSchema)) (n : String) :
    findProp l n = none ↔ n ∉ l.map Prod.fst := by
  induction l with
  | nil => simp [findProp]
  | cons kv tl ih =>
    obtain ⟨k, v⟩ := kv
    by_cases h : k = n
    · subst h
      simp [findProp]
    · simp [findProp, h, ih, Ne.symm h]

theorem findProp_isSome_iff (l : List (String × JSONSchema)) (n : String) :
    (findProp l n).isSome = true ↔ n ∈ l.map Prod.fst := by
  rw [← Decidable.not_iff_not, ← findProp_eq_none_iff l n]
  simp [Option.isSome_iff_ne_none]

theorem findProp_setKey_self (l : List (String × JSONSchema)) (k : String) (v : JSONSchema) :
    findProp (setKey l k v) k = some v := by
  induction l with
  | nil => simp [setKey, findProp]
  | cons kv tl ih =>
    by_cases h : kv.1 = k
    · simp [setKey, h, findProp]
    · simp [setKey, h, findProp, ih]

theorem findProp_setKey_ne (l : List (String × JSONSchema)) (k : String) (v : JSONSchema)
    (n : String) (h : k ≠ n) : findProp (setKey l k v) n = findProp l n := by
  induction l with
  | nil => simp [setKey, findProp, h]
  | cons kv tl ih =>
    by_cases h2 : kv.1 = k
    · simp [setKey, h2, findProp, h]
    · simp only [setKey, h2, if_false, findProp]
      by_cases h3 : kv.1 = n
      · simp [h3]
      · simp [h3, ih]

theorem keysOf_setKey_of_none (l : List (String × JSONSchema)) (k : String) (v : JSONSchema)
    (h : findProp l k = none) : (setKey l k v).map Prod.fst = l.map Prod.fst ++ [k] := by
  induction l with
  | nil => simp [setKey]
  | cons kv tl ih =>
    obtain ⟨k1, v1⟩ := kv
    by_cases h2 : k1 = k
    · rw [findProp_eq_none_iff] at h
      simp [h2] at h
    · have h3 : findProp tl k = none := by
        have h4 := h
        simp only [findProp] at h4
        rw [if_neg h2] at h4
        exact h4
      simp [setKey, h2, ih h3]

theorem keysOf_setKey_of_isSome (l : List (String × JSONSchema)) (k : String) (v : JSONSchema)
    (h : (findProp l k).isSome = true) : (setKey l k v).map Prod.fst = l.map Prod.fst := by
  induction l with
  | nil => simp [findProp] at h
  | cons kv tl ih =>
    obtain ⟨k1, v1⟩ := kv
    by_cases h2 : k1 = k
    · simp [setKey, h2]
    · have h3 : (findProp tl k).isSome = true := by
        have h4 := h
        simp only [findProp] at h4
        rw [if_neg h2] at h4
        exact h4
      simp [setKey, h2, ih h3]

theorem mem_keysOf_setKey (l : List (String × JSONSchema)) (k : String) (v : JSONSchema)
    (m : String) : m ∈ (setKey l k v).map Prod.fst ↔ m ∈ l.map Prod.fst ∨ m = k := by
  cases h : findProp l k with
  | none =>
    rw [keysOf_setKey_of_none l k v h]
    simp
  | some w =>
    rw [keysOf_setKey_of_isSome l k v (by simp [h])]
    have hk : k ∈ l.map Prod.fst := by
      rw [← findProp_isSome_iff]
      simp [h]
    constructor
    · exact fun hm => Or.inl hm
    · rintro (hm | rfl)
      · exact hm
      · exact hk

theorem mem_keysOf_delKey (l : List (String × JSONSchema)) (n m : String) :
    m ∈ (delKey l n).map Prod.fst ↔ m ∈ l.map Prod.fst ∧ m ≠ n := by
  constructor
  · intro hm
    rw [List.mem_map] at hm
    obtain ⟨kv, hkv, rfl⟩ := hm
    rw [delKey, List.mem_filter] at hkv
    refine ⟨List.mem_map_of_mem _ hkv.1, by simpa using hkv.2⟩
  · rintro ⟨hm, hne⟩
    rw [List.mem_map] at hm
    obtain ⟨kv, hkv, rfl⟩ := hm
    exact List.mem_map_of_mem _ (by
      rw [delKey, List.mem_filter]
      exact ⟨hkv, by simpa using hne⟩)

theorem withRequired_required (s : JSONSchema) (r : Option (List String)) :
    (s.withRequired r).required = r := by
  cases s
  rfl

theorem withRequired_properties (s : JSONSchema) (r : Option (List String)) :
    (s.withRequired r).properties = s.properties := by
  cases s
  rfl

theorem withProperties_properties (s : JSONSchema) (p : Option (List (String × JSONSchema))) :
    (s.withProperties p).properties = p := by
  cases s
  rfl

theorem withProperties_required (s : JSONSchema) (p : Option (List (String × JSONSchema))) :
    (s.withProperties p).required = s.required := by
  cases s
  rfl

theorem withAdditionalProperties_required (s : JSONSchema) (x : Option (Sum Bool JSONSchema)) :
    (s.withAdditionalProperties x).required = s.required := by
  cases s
  rfl

theorem withAdditionalProperties_properties (s : JSONSchema) (x : Option (Sum Bool JSONSchema)) :
    (s.withAdditionalProperties x).properties = s.properties := by
  cases s
  rfl

theorem propertyNamesOf_withRequired (s : JSONSchema) (r : Option (List String)) :
    propertyNamesOf (s.withRequired r) = propertyNamesOf s := by
  rw [propertyNamesOf, propertyNamesOf, withRequired_properties]

theorem requiredWf_emptySchema (nullable : Bool) : RequiredWf (emptySchema nullable) := by
  constructor
  · intro r hr
    simp [emptySchema, JSONSchema.required] at hr
  · intro r hr
    simp [emptySchema, JSONSchema.required] at hr

theorem requiredWf_objectSchema (defs : List (String × JSONSchema × Bool)) (nullable : Bool)
    (hdefs : (defs.map (fun d => d.1)).Nodup) : RequiredWf (objectSchema defs nullable) := by
  have hreq : (objectSchema defs nullable).required
      = (if ((defs.filter (fun d => d.2.2)).map (fun d => d.1)).isEmpty then none
         else some ((defs.filter (fun d => d.2.2)).map (fun d => d.1))) := rfl
  have hprops : (objectSchema defs nullable).properties
      = (if (defs.map (fun d => (d.1, d.2.1))).isEmpty then none
         else some (defs.map (fun d => (d.1, d.2.1)))) := rfl
  constructor
  · intro r hr
    rw [hreq] at hr
    split at hr
    · exact absurd hr (by simp)
    · rename_i hne
      rw [Option.some.injEq] at hr
      subst hr
      constructor
      · exact ((List.filter_sublist defs).map (fun d => d.1)).nodup hdefs
      · intro n hn
        rw [List.mem_map] at hn
        obtain ⟨d, hd, rfl⟩ := hn
        have hdin : d ∈ defs := List.mem_of_mem_filter hd
        have hdefs_ne : (defs.map (fun d => (d.1, d.2.1))).isEmpty = false := by
          cases defs with
          | nil => simp at hdin
          | cons a tl => simp
        rw [propertyNamesOf, hprops, hdefs_ne]
        simp only [Bool.false_eq_true, if_false, Option.getD_some, List.map_map]
        exact List.mem_map_of_mem _ hdin
  · intro r hr
    rw [hreq] at hr
    split at hr
    · exact absurd hr (by simp)
    · rename_i hne
      rw [Option.some.injEq] at hr
      subst hr
      intro hcon
      rw [hcon] at hne
      simp at hne

theorem requiredWf_addProperty (s : JSONSchema) (pname : String) (psb : JSONSchema) (breq : Bool)
    (hs : RequiredWf s) : exceptOk RequiredWf (addProperty s pname psb breq) := by
  have hold : (s.required.getD []).Nodup
      ∧ ∀ n ∈ s.required.getD [], n ∈ propertyNamesOf s := by
    cases hsr : s.required with
    | none => simp
    | some r0 => simpa using hs.1 r0 hsr
  simp only [addProperty]
  split
  · trivial
  · split
    · trivial
    · rename_i hobj hdup
      rw [Option.not_isSome_iff_eq_none] at hdup
      have hpn : pname ∉ propertyNamesOf s := by
        rw [propertyNamesOf, ← findProp_eq_none_iff]
        exact hdup
      split
      · show RequiredWf _
        constructor
        · intro r hr
          rw [withRequired_required, Option.some.injEq] at hr
          subst hr
          constructor
          · rw [List.nodup_append]
            refine ⟨hold.1, List.nodup_singleton pname, ?_⟩
            intro a ha hb
            rw [List.mem_singleton] at hb
            subst hb
            exact hpn (hold.2 a ha)
          · intro n hn
            rw [propertyNamesOf, withRequired_properties, withProperties_properties,
              Option.getD_some]
            rw [List.mem_append, List.mem_singleton] at hn
            rw [mem_keysOf_setKey]
            rcases hn with hn | rfl
            · exact Or.inl (hold.2 n hn)
            · exact Or.inr rfl
        · intro r hr
          rw [withRequired_required, Option.some.injEq] at hr
          subst hr
          simp
      · show RequiredWf _
        constructor
        · intro r hr
          rw [withProperties_required] at hr
          refine ⟨(hs.1 r hr).1, ?_⟩
          intro n hn
          rw [propertyNamesOf, withProperties_properties, Option.getD_some, mem_keysOf_setKey]
          exact Or.inl ((hs.1 r hr).2 n hn)
        · intro r hr
          rw [withProperties_required] at hr
          exact hs.2 r hr

theorem clearDflt_keys (ps : List (String × JSONSchema)) (names : List String) :
    ((ps.map (fun kv => if kv.1 ∈ names then (kv.1, kv.2.clearDflt) else kv)).map Prod.fst)
      = ps.map Prod.fst := by
  rw [List.map_map]
  apply List.map_congr_left
  intro kv _
  by_cases hkv : kv.1 ∈ names
  · simp [hkv]
  · simp [hkv]

theorem requiredWf_setOptionalProperties (s : JSONSchema) (names : List String)
    (hs : RequiredWf s) : exceptOk RequiredWf (setOptionalProperties s names) := by
  have hold : (s.required.getD []).Nodup
      ∧ ∀ n ∈ s.required.getD [], n ∈ propertyNamesOf s := by
    cases hsr : s.required with
    | none => simp
    | some r0 => simpa using hs.1 r0 hsr
  simp only [setOptionalProperties]
  split
  · trivial
  · show RequiredWf _
    have hkeys : propertyNamesOf (match s.properties with
        | none => s
        | some ps => s.withProperties (some (ps.map (fun kv =>
            if kv.1 ∈ names then (kv.1, kv.2.clearDflt) else kv)))) = propertyNamesOf s := by
      cases hp : s.properties with
      | none => rfl
      | some ps =>
        rw [propertyNamesOf, withProperties_properties, Option.getD_some, clearDflt_keys,
          propertyNamesOf, hp, Option.getD_some]
    rw [setRequired]
    split
    · constructor
      · intro r hr
        rw [withRequired_required] at hr
        exact absurd hr (by simp)
      · intro r hr
        rw [withRequired_required] at hr
        exact absurd hr (by simp)
    · rename_i hne
      constructor
      · intro r hr
        rw [withRequired_required, Option.some.injEq] at hr
        subst hr
        constructor
        · exact hold.1.filter _
        · intro n hn
          rw [propertyNamesOf_withRequired, hkeys]
          rw [List.mem_filter] at hn
          exact hold.2 n hn.1
      · intro r hr
        rw [withRequired_required, Option.some.injEq] at hr
        subst hr
        intro hcon
        rw [hcon] at hne
        simp at hne

theorem setRequiredFold_wf (P : List String) : ∀ (names : List String) (cur : JSONSchema),
    RequiredWf cur → propertyNamesOf cur = P → (∀ n ∈ names, n ∈ P) →
    RequiredWf (names.foldl (fun s n =>
      let r := s.required.getD []
      if n ∈ r then s.withRequired (some r) else s.withRequired (some (r ++ [n]))) cur)
  | [], cur, hw, _, _ => hw
  | n :: tl, cur, hw, hP, hnames => by
    have holdc : (cur.required.getD []).Nodup
        ∧ ∀ m ∈ cur.required.getD [], m ∈ propertyNamesOf cur := by
      cases hsr : cur.required with
      | none => simp
      | some r0 => simpa using hw.1 r0 hsr
    rw [List.foldl_cons]
    have hstep : RequiredWf ((fun s n =>
        let r := s.required.getD []
        if n ∈ r then s.withRequired (some r) else s.withRequired (some (r ++ [n]))) cur n)
        ∧ propertyNamesOf ((fun s n =>
        let r := s.required.getD []
        if n ∈ r then s.withRequired (some r) else s.withRequired (some (r ++ [n]))) cur n) = P := by
      simp only []
      split
      · rename_i hmem
        refine ⟨⟨?_, ?_⟩, by rw [propertyNamesOf_withRequired, hP]⟩
        · intro r hr
          rw [withRequired_required, Option.some.injEq] at hr
          subst hr
          refine ⟨holdc.1, ?_⟩
          intro m hm
          rw [propertyNamesOf_withRequired]
          exact holdc.2 m hm
        · intro r hr
          rw [withRequired_required, Option.some.injEq] at hr
          subst hr
          intro hcon
          rw [hcon] at hmem
          simp at hmem
      · rename_i hmem
        refine ⟨⟨?_, ?_⟩, by rw [propertyNamesOf_withRequired, hP]⟩
        · intro r hr
          rw [withRequired_required, Option.some.injEq] at hr
          subst hr
          constructor
          · rw [List.nodup_append]
            exact ⟨holdc.1, List.nodup_singleton n, by
              intro a ha hb
              rw [List.mem_singleton] at hb
              subst hb
              exact hmem ha⟩
          · intro m hm
            rw [propertyNamesOf_withRequired]
            rw [List.mem_append, List.mem_singleton] at hm
            rcases hm with hm | rfl
            · exact holdc.2 m hm
            · rw [hP]
              exact hnames m (by simp)
        · intro r hr
          rw [withRequired_required, Option.some.injEq] at hr
          subst hr
          simp
    exact setRequiredFold_wf P tl _ hstep.1 hstep.2 (fun m hm => hnames m (by simp [hm]))

theorem requiredWf_setRequiredProperties (s : JSONSchema) (names : List String)
    (hs : RequiredWf s) (hnames : ∀ n ∈ names, n ∈ propertyNamesOf s) :
    exceptOk RequiredWf (setRequiredProperties s names) := by
  simp only [setRequiredProperties]
  split
  · trivial
  · show RequiredWf _
    exact setRequiredFold_wf (propertyNamesOf s) names s hs rfl hnames

theorem pickFold_mem (props : List (String × JSONSchema)) :
    ∀ (names : List String) (acc : List (String × JSONSchema)) (m : String),
    (m ∈ acc.map Prod.fst ∨ (m ∈ names ∧ (findProp props m).isSome = true)) →
    m ∈ (names.foldl (fun acc n =>
      match findProp props n with
      | some v => setKey acc n v
      | none => acc) acc).map Prod.fst
  | [], acc, m, h => by
    rcases h with h | h
    · simpa using h
    · simp at h
  | n :: tl, acc, m, h => by
    rw [List.foldl_cons]
    apply pickFold_mem props tl
    rcases h with h | ⟨hm, hsome⟩
    · left
      cases hfp : findProp props n with
      | none => simpa [hfp] using h
      | some v =>
        simp only [hfp]
        rw [mem_keysOf_setKey]
        exact Or.inl h
    · rw [List.mem_cons] at hm
      rcases hm with rfl | hm
      · left
        cases hfp : findProp props m with
        | none => rw [hfp] at hsome; simp at hsome
        | some v =>
          simp only [hfp]
          rw [mem_keysOf_setKey]
          exact Or.inr rfl
      · exact Or.inr ⟨hm, hsome⟩

theorem requiredWf_pickProperties (s : JSONSchema) (names : List String)
    (hs : RequiredWf s) : exceptOk RequiredWf (pickProperties s names) := by
  simp only [pickProperties]
  split
  · trivial
  · show RequiredWf _
    cases hsr : s.required with
    | none =>
      constructor
      · intro r hr
        rw [withAdditionalProperties_required, withRequired_required] at hr
        simp [hsr] at hr
      · intro r hr
        rw [withAdditionalProperties_required, withRequired_required] at hr
        simp [hsr] at hr
    | some r0 =>
      have hr0 := hs.1 r0 hsr
      constructor
      · intro r hr
        rw [withAdditionalProperties_required, withRequired_required] at hr
        simp only [hsr] at hr
        split at hr
        · exact absurd hr (by simp)
        · rename_i hne
          rw [Option.some.injEq] at hr
          subst hr
          constructor
          · exact hr0.1.filter _
          · intro n hn
            rw [List.mem_filter, decide_eq_true_eq] at hn
            rw [propertyNamesOf, withAdditionalProperties_properties, withRequired_properties,
              withProperties_properties, Option.getD_some]
            apply pickFold_mem
            right
            refine ⟨hn.2, ?_⟩
            rw [findProp_isSome_iff]
            exact hr0.2 n hn.1
      · intro r hr
        rw [withAdditionalProperties_required, withRequired_required] at hr
        simp only [hsr] at hr
        split at hr
        · exact absurd hr (by simp)
        · rename_i hne
          rw [Option.some.injEq] at hr
          subst hr
          intro hcon
          exact hne (by rw [hcon])

theorem requiredWf_renameProperty (s : JSONSchema) (old new : String)
    (hs : RequiredWf s) (hnew : new ∉ propertyNamesOf s) :
    exceptOk RequiredWf (renameProperty s old new) := by
  simp only [renameProperty]
  split
  · trivial
  · rw [propertyNamesOf] at hnew
    cases hfp : findProp (s.properties.getD []) old with
    | none =>
      show RequiredWf _
      constructor
      · intro r hr
        rw [withProperties_required] at hr
        refine ⟨(hs.1 r hr).1, ?_⟩
        intro n hn
        rw [propertyNamesOf, withProperties_properties, Option.getD_some]
        exact (hs.1 r hr).2 n hn
      · intro r hr
        rw [withProperties_required] at hr
        exact hs.2 r hr
    | some v =>
      show RequiredWf _
      have hold_mem : old ∈ (s.properties.getD []).map Prod.fst := by
        rw [← findProp_isSome_iff]
        simp [hfp]
      have hno : new ≠ old := by
        intro hcon
        rw [hcon] at hnew
        exact hnew hold_mem
      have hkeys2 : ∀ m, m ∈ (delKey (setKey (s.properties.getD []) new v) old).map Prod.fst
          ↔ (m ∈ (s.properties.getD []).map Prod.fst ∨ m = new) ∧ m ≠ old := by
        intro m
        rw [mem_keysOf_delKey, mem_keysOf_setKey]
      constructor
      · intro r hr
        rw [withRequired_required] at hr
        cases hsr : s.required with
        | none => simp [hsr] at hr
        | some r0 =>
          have hr0 := hs.1 r0 hsr
          rw [hsr] at hr
          simp only at hr
          by_cases hmem : old ∈ r0
          · rw [if_pos hmem, Option.some.injEq] at hr
            subst hr
            constructor
            · rw [List.nodup_append]
              refine ⟨hr0.1.erase old, List.nodup_singleton new, ?_⟩
              intro a ha hb
              rw [List.mem_singleton] at hb
              subst hb
              exact hnew (hr0.2 a (List.mem_of_mem_erase ha))
            · intro n hn
              rw [propertyNamesOf, withRequired_properties, withProperties_properties,
                Option.getD_some]
              rw [List.mem_append, List.mem_singleton] at hn
              rw [hkeys2]
              rcases hn with hn | rfl
              · rw [hr0.1.mem_erase_iff] at hn
                exact ⟨Or.inl (hr0.2 n hn.2), hn.1⟩
              · exact ⟨Or.inr rfl, hno⟩
          · rw [if_neg hmem, Option.some.injEq] at hr
            subst hr
            constructor
            · exact hr0.1
            · intro n hn
              rw [propertyNamesOf, withRequired_properties, withProperties_properties,
                Option.getD_some]
              rw [hkeys2]
              refine ⟨Or.inl (hr0.2 n hn), ?_⟩
              intro hcon
              subst hcon
              exact hmem hn
      · intro r hr
        rw [withRequired_required] at hr
        cases hsr : s.required with
        | none => simp [hsr] at hr
        | some r0 =>
          rw [hsr] at hr
          simp only at hr
          by_cases hmem : old ∈ r0
          · rw [if_pos hmem, Option.some.injEq] at hr
            subst hr
            simp
          · rw [if_neg hmem, Option.some.injEq] at hr
            subst hr
            exact hs.2 r0 hsr

theorem requiredNodupSub_replaceProperty (s : JSONSchema) (pname : String) (rsb : JSONSchema)
    (breq : Bool) (hs : RequiredWf s) :
    exceptOk RequiredNodupSub (replaceProperty s pname rsb breq) := by
  have hold : (s.required.getD []).Nodup
      ∧ ∀ n ∈ s.required.getD [], n ∈ propertyNamesOf s := by
    cases hsr : s.required with
    | none => simp
    | some r0 => simpa using hs.1 r0 hsr
  simp only [replaceProperty]
  split
  · trivial
  · have hfil : ((match s.required with
        | none => none
        | some r => some (r.filter (fun p => decide (p ≠ pname)))) : Option (List String)).getD []
        = (s.required.getD []).filter (fun p => decide (p ≠ pname)) := by
      cases s.required <;> rfl
    split
    · show RequiredNodupSub _
      intro r hr
      rw [withRequired_required, Option.some.injEq] at hr
      subst hr
      rw [hfil]
      constructor
      · rw [List.nodup_append]
        refine ⟨hold.1.filter _, List.nodup_singleton pname, ?_⟩
        intro a ha hb
        rw [List.mem_singleton] at hb
        subst hb
        rw [List.mem_filter, decide_eq_true_eq] at ha
        exact ha.2 rfl
      · intro n hn
        rw [propertyNamesOf, withRequired_properties, withRequired_properties,
          withProperties_properties, Option.getD_some]
        rw [List.mem_append, List.mem_singleton] at hn
        rw [mem_keysOf_setKey]
        rcases hn with hn | rfl
        · rw [List.mem_filter] at hn
          exact Or.inl (hold.2 n hn.1)
        · exact Or.inr rfl
    · show RequiredNodupSub _
      intro r hr
      rw [withRequired_required] at hr
      cases hsr : s.required with
      | none => simp [hsr] at hr
      | some r0 =>
        rw [hsr] at hr
        simp only [Option.some.injEq] at hr
        subst hr
        have hr0 := hs.1 r0 hsr
        constructor
        · exact hr0.1.filter _
        · intro n hn
          rw [propertyNamesOf, withRequired_properties, withProperties_properties,
            Option.getD_some]
          rw [List.mem_filter] at hn
          rw [mem_keysOf_setKey]
          exact Or.inl (hr0.2 n hn.1)

theorem mergeStep_nodupsub (req2 : List String) (acc : JSONSchema) (kv : String × JSONSchema)
    (h : RequiredNodupSub acc) : RequiredNodupSub (mergeStep req2 acc kv) := by
  cases hfp : findProp (acc.properties.getD []) kv.1 with
  | some w =>
    have hkeys : (setKey (acc.properties.getD []) kv.1 (anyOfPair w kv.2)).map Prod.fst
        = (acc.properties.getD []).map Prod.fst :=
      keysOf_setKey_of_isSome _ _ _ (by simp [hfp])
    simp only [mergeStep, hfp]
    split
    · intro r hr
      rw [withRequired_required] at hr
      cases hsr : acc.required with
      | none => simp [hsr] at hr
      | some r0 =>
        rw [hsr] at hr
        simp only [Option.some.injEq] at hr
        subst hr
        have hr0 := h r0 hsr
        constructor
        · exact hr0.1.filter _
        · intro n hn
          rw [propertyNamesOf, withRequired_properties, withProperties_properties,
            Option.getD_some, hkeys]
          rw [List.mem_filter] at hn
          exact hr0.2 n hn.1
    · intro r hr
      rw [withProperties_required] at hr
      have hr0 := h r hr
      refine ⟨hr0.1, ?_⟩
      intro n hn
      rw [propertyNamesOf, withProperties_properties, Option.getD_some, hkeys]
      exact hr0.2 n hn
  | none =>
    have hkeys : (setKey (acc.properties.getD []) kv.1 kv.2).map Prod.fst
        = (acc.properties.getD []).map Prod.fst ++ [kv.1] :=
      keysOf_setKey_of_none _ _ _ hfp
    have hknot : kv.1 ∉ (acc.properties.getD []).map Prod.fst := by
      rw [← findProp_eq_none_iff]
      exact hfp
    have hold : (acc.required.getD []).Nodup
        ∧ ∀ n ∈ acc.required.getD [], n ∈ propertyNamesOf acc := by
      cases hsr : acc.required with
      | none => simp
      | some r0 => simpa using h r0 hsr
    simp only [mergeStep, hfp]
    split
    · intro r hr
      rw [withRequired_required, Option.some.injEq] at hr
      subst hr
      constructor
      · rw [List.nodup_append]
        refine ⟨hold.1, List.nodup_singleton kv.1, ?_⟩
        intro a ha hb
        rw [List.mem_singleton] at hb
        have h5 := hold.2 a ha
        rw [propertyNamesOf] at h5
        rw [hb] at h5
        exact hknot h5
      · intro n hn
        rw [propertyNamesOf, withRequired_properties, withProperties_properties,
          Option.getD_some, hkeys]
        rw [List.mem_append, List.mem_singleton] at hn
        rw [List.mem_append, List.mem_singleton]
        rcases hn with hn | rfl
        · left
          have h5 := hold.2 n hn
          rw [propertyNamesOf] at h5
          exact h5
        · exact Or.inr rfl
    · intro r hr
      rw [withProperties_required] at hr
      have hr0 := h r hr
      refine ⟨hr0.1, ?_⟩
      intro n hn
      rw [propertyNamesOf, withProperties_properties, Option.getD_some, hkeys]
      rw [List.mem_append]
      left
      have h5 := hr0.2 n hn
      rw [propertyNamesOf] at h5
      exact h5

theorem mergeFold_nodupsub (req2 : List String) :
    ∀ (ps2 : List (String × JSONSchema)) (acc : JSONSchema),
    RequiredNodupSub acc → RequiredNodupSub (ps2.foldl (mergeStep req2) acc)
  | [], _, h => h
  | kv :: tl, acc, h => by
    rw [List.foldl_cons]
    exact mergeFold_nodupsub req2 tl _ (mergeStep_nodupsub req2 acc kv h)

theorem requiredNodupSub_mergeProperties (s s2 : JSONSchema) (hs : RequiredWf s) :
    exceptOk RequiredNodupSub (mergeProperties s s2) := by
  simp only [mergeProperties]
  split
  · trivial
  · show RequiredNodupSub (mergeResult s s2)
    rw [mergeResult]
    cases hp2 : s2.properties with
    | none => exact hs.1
    | some ps2 =>
      apply mergeFold_nodupsub
      intro r hr
      rw [withProperties_required] at hr
      refine ⟨(hs.1 r hr).1, ?_⟩
      intro n hn
      rw [propertyNamesOf, withProperties_properties, Option.getD_some]
      exact (hs.1 r hr).2 n hn

/-- C4 counterexample: replacing the only required property of a document
as optional leaves the required keyword present as an empty list instead
of removing it. -/
theorem replaceProperty_empty_required_counterexample :
    (replaceProperty (objectSchema [("a", stringSchema false, true)] false) "a"
        (stringSchema false) false).toOption.map JSONSchema.required = some (some []) := rfl

/-- C4 (amended): for documents produced by the constructors or by
addProperty, setOptionalProperties, setRequiredProperties, pickProperties,
or renameProperty onto a fresh name, the required list never contains a
duplicate name, every required name is a property name, and the list is
omitted entirely whenever it is empty; replaceProperty (and hence
addOrReplaceProperty) and mergeProperties keep the required list
duplicate-free and within the property names but may leave it present as
an empty list, as the counterexample shows. -/
theorem required_list_invariant
    (defs : List (String × JSONSchema × Bool)) (nullable : Bool)
    (s s2 psb rsb : JSONSchema)
    (onames rnames pnames : List String)
    (pname rpname old new : String) (breq brreq : Bool)
    (hdefs : (defs.map (fun d => d.1)).Nodup)
    (hs : RequiredWf s)
    (hrnames : ∀ n ∈ rnames, n ∈ propertyNamesOf s)
    (hnew : new ∉ propertyNamesOf s) :
    RequiredWf (objectSchema defs nullable)
    ∧ RequiredWf (emptySchema nullable)
    ∧ exceptOk RequiredWf (addProperty s pname psb breq)
    ∧ exceptOk RequiredWf (setOptionalProperties s onames)
    ∧ exceptOk RequiredWf (setRequiredProperties s rnames)
    ∧ exceptOk RequiredWf (pickProperties s pnames)
    ∧ exceptOk RequiredWf (renameProperty s old new)
    ∧ exceptOk RequiredNodupSub (replaceProperty s rpname rsb brreq)
    ∧ exceptOk RequiredNodupSub (mergeProperties s s2) :=
  ⟨requiredWf_objectSchema defs nullable hdefs,
   requiredWf_emptySchema nullable,
   requiredWf_addProperty s pname psb breq hs,
   requiredWf_setOptionalProperties s onames hs,
   requiredWf_setRequiredProperties s rnames hs hrnames,
   requiredWf_pickProperties s pnames hs,
   requiredWf_renameProperty s old new hs hnew,
   requiredNodupSub_replaceProperty s rpname rsb brreq hs,
   requiredNodupSub_mergeProperties s s2 hs⟩

theorem required_list_invariant_witness :
    RequiredWf (objectSchema [("a", stringSchema false, true)] false)
    ∧ RequiredWf (emptySchema false)
    ∧ exceptOk RequiredWf (addProperty (objectSchema [("a", stringSchema false, true)] false)
        "b" (stringSchema false) true)
    ∧ exceptOk RequiredWf (setOptionalProperties
        (objectSchema [("a", stringSchema false, true)] false) ["a"])
    ∧ exceptOk RequiredWf (setRequiredProperties
        (objectSchema [("a", stringSchema false, true)] false) ["a"])
    ∧ exceptOk RequiredWf (pickProperties
        (objectSchema [("a", stringSchema false, true)] false) ["a"])
    ∧ exceptOk RequiredWf (renameProperty
        (objectSchema [("a", stringSchema false, true)] false) "a" "b")
    ∧ exceptOk RequiredNodupSub (replaceProperty
        (objectSchema [("a", stringSchema false, true)] false) "a" (stringSchema false) true)
    ∧ exceptOk RequiredNodupSub (mergeProperties
        (objectSchema [("a", stringSchema false, true)] false)
        (objectSchema [("a", stringSchema false, true)] false)) := by
  have hwf : RequiredWf (objectSchema [("a", stringSchema false, true)] false) := by
    constructor
    · intro r hr
      rw [show (objectSchema [("a", stringSchema false, true)] false).required
        = some ["a"] from rfl, Option.some.injEq] at hr
      subst hr
      constructor
      · simp
      · intro n hn
        simp only [List.mem_singleton] at hn
        subst hn
        rw [show propertyNamesOf (objectSchema [("a", stringSchema false, true)] false)
          = ["a"] from rfl]
        simp
    · intro r hr
      rw [show (objectSchema [("a", stringSchema false, true)] false).required
        = some ["a"] from rfl, Option.some.injEq] at hr
      subst hr
      simp
  exact required_list_invariant [("a", stringSchema false, true)] false
    (objectSchema [("a", stringSchema false, true)] false)
    (objectSchema [("a", stringSchema false, true)] false)
    (stringSchema false) (stringSchema false)
    ["a"] ["a"] ["a"] "b" "a" "a" "b" true true
    (by simp) hwf
    (by
      intro n hn
      simp only [List.mem_singleton] at hn
      subst hn
      rw [show propertyNamesOf (objectSchema [("a", stringSchema false, true)] false)
        = ["a"] from rfl]
      simp)
    (by
      rw [show propertyNamesOf (objectSchema [("a", stringSchema false, true)] false)
        = ["a"] from rfl]
      decide)

theorem matchRequired_getD (o : Option (List String)) (k : String) :
    ((match o with
      | none => none
      | some r => some (r.filter (fun p => decide (p ≠ k)))) : Option (List String)).getD []
      = (o.getD []).filter (fun p => decide (p ≠ k)) := by
  cases o <;> rfl

theorem mergeStep_preserve_ne (req2 : List String) (acc : JSONSchema) (k : String)
    (w2 : JSONSchema) (n : String) (h : k ≠ n) :
    findProp ((mergeStep req2 acc (k, w2)).properties.getD []) n
      = findProp (acc.properties.getD []) n
    ∧ ((n ∈ (mergeStep req2 acc (k, w2)).required.getD [])
        ↔ n ∈ acc.required.getD []) := by
  cases hfp : findProp (acc.properties.getD []) k with
  | some w =>
    simp only [mergeStep, hfp]
    split
    · constructor
      · rw [withRequired_properties, withProperties_properties, Option.getD_some]
        exact findProp_setKey_ne _ _ _ _ h
      · rw [withRequired_required, matchRequired_getD]
        rw [List.mem_filter, decide_eq_true_eq]
        constructor
        · exact fun hx => hx.1
        · exact fun hx => ⟨hx, Ne.symm h⟩
    · constructor
      · rw [withProperties_properties, Option.getD_some]
        exact findProp_setKey_ne _ _ _ _ h
      · rw [withProperties_required]
  | none =>
    simp only [mergeStep, hfp]
    split
    · constructor
      · rw [withRequired_properties, withProperties_properties, Option.getD_some]
        exact findProp_setKey_ne _ _ _ _ h
      · rw [withRequired_required, Option.getD_some, List.mem_append, List.mem_singleton]
        constructor
        · rintro (hx | rfl)
          · exact hx
          · exact absurd rfl h
        · exact fun hx => Or.inl hx
    · constructor
      · rw [withProperties_properties, Option.getD_some]
        exact findProp_setKey_ne _ _ _ _ h
      · rw [withProperties_required]

theorem mergeStep_self_shared (req2 : List String) (acc : JSONSchema) (n : String)
    (w2 w : JSONSchema) (hfp : findProp (acc.properties.getD []) n = some w) :
    findProp ((mergeStep req2 acc (n, w2)).properties.getD []) n = some (anyOfPair w w2)
    ∧ ((n ∈ (mergeStep req2 acc (n, w2)).required.getD [])
        ↔ (n ∈ acc.required.getD [] ∧ n ∈ req2)) := by
  simp only [mergeStep, hfp]
  split
  · rename_i hcond
    constructor
    · rw [withRequired_properties, withProperties_properties, Option.getD_some]
      exact findProp_setKey_self _ _ _
    · rw [withRequired_required, matchRequired_getD]
      rw [List.mem_filter, decide_eq_true_eq]
      constructor
      · rintro ⟨_, hne⟩
        exact absurd rfl hne
      · rintro ⟨_, hr2⟩
        exact absurd hr2 hcond.2
  · rename_i hcond
    constructor
    · rw [withProperties_properties, Option.getD_some]
      exact findProp_setKey_self _ _ _
    · rw [withProperties_required]
      constructor
      · intro hmem
        rcases Decidable.em (n ∈ req2) with hr2 | hr2
        · exact ⟨hmem, hr2⟩
        · exact absurd ⟨hmem, hr2⟩ hcond
      · exact fun hx => hx.1

theorem mergeStep_self_fresh (req2 : List String) (acc : JSONSchema) (n : String)
    (w2 : JSONSchema) (hfp : findProp (acc.properties.getD []) n = none) :
    findProp ((mergeStep req2 acc (n, w2)).properties.getD []) n = some w2
    ∧ ((n ∈ (mergeStep req2 acc (n, w2)).required.getD [])
        ↔ (n ∈ acc.required.getD [] ∨ n ∈ req2)) := by
  simp only [mergeStep, hfp]
  split
  · rename_i hr2
    constructor
    · rw [withRequired_properties, withProperties_properties, Option.getD_some]
      exact findProp_setKey_self _ _ _
    · rw [withRequired_required, Option.getD_some, List.mem_append, List.mem_singleton]
      constructor
      · rintro (hx | h9)
        · exact Or.inl hx
        · exact Or.inr hr2
      · rintro (hx | hx)
        · exact Or.inl hx
        · exact Or.inr rfl
  · rename_i hr2
    constructor
    · rw [withProperties_properties, Option.getD_some]
      exact findProp_setKey_self _ _ _
    · rw [withProperties_required]
      constructor
      · exact fun hx => Or.inl hx
      · rintro (hx | hx)
        · exact hx
        · exact absurd hx hr2

theorem mergeFold_char (req2 : List String) (n : String) :
    ∀ (ps2 : List (String × JSONSchema)) (acc : JSONSchema),
    (ps2.map Prod.fst).Nodup →
    (findProp ps2 n = none →
      findProp ((ps2.foldl (mergeStep req2) acc).properties.getD []) n
        = findProp (acc.properties.getD []) n
      ∧ (n ∈ (ps2.foldl (mergeStep req2) acc).required.getD []
          ↔ n ∈ acc.required.getD []))
    ∧ (∀ v, findProp ps2 n = some v →
      (findProp (acc.properties.getD []) n = none →
        findProp ((ps2.foldl (mergeStep req2) acc).properties.getD []) n = some v
        ∧ (n ∈ (ps2.foldl (mergeStep req2) acc).required.getD []
            ↔ (n ∈ acc.required.getD [] ∨ n ∈ req2)))
      ∧ (∀ w, findProp (acc.properties.getD []) n = some w →
        findProp ((ps2.foldl (mergeStep req2) acc).properties.getD []) n
          = some (anyOfPair w v)
        ∧ (n ∈ (ps2.foldl (mergeStep req2) acc).required.getD []
            ↔ (n ∈ acc.required.getD [] ∧ n ∈ req2))))
  | [], acc, _ => by
    refine ⟨fun _ => ⟨rfl, Iff.rfl⟩, fun v hv => ?_⟩
    simp [findProp] at hv
  | (k, w2) :: tl, acc, hnd => by
    have hnd2 : (tl.map Prod.fst).Nodup := by
      rw [List.map_cons, List.nodup_cons] at hnd
      exact hnd.2
    have hkn : k ∉ tl.map Prod.fst := by
      rw [List.map_cons, List.nodup_cons] at hnd
      exact hnd.1
    rw [List.foldl_cons]
    by_cases hk : k = n
    · subst hk
      have hfp_tl : findProp tl k = none := by
        rw [findProp_eq_none_iff]
        exact hkn
      have IH := mergeFold_char req2 k tl (mergeStep req2 acc (k, w2)) hnd2
      constructor
      · intro hnone
        rw [show findProp ((k, w2) :: tl) k = some w2 by simp [findProp]] at hnone
        exact absurd hnone (by simp)
      · intro v hv
        rw [show findProp ((k, w2) :: tl) k = some w2 by simp [findProp]] at hv
        rw [Option.some.injEq] at hv
        subst hv
        constructor
        · intro hacc_none
          have hstep := mergeStep_self_fresh req2 acc k w2 hacc_none
          have hrest := IH.1 hfp_tl
          refine ⟨hrest.1.trans hstep.1, ?_⟩
          rw [hrest.2, hstep.2]
        · intro w hacc_some
          have hstep := mergeStep_self_shared req2 acc k w2 w hacc_some
          have hrest := IH.1 hfp_tl
          refine ⟨hrest.1.trans hstep.1, ?_⟩
          rw [hrest.2, hstep.2]
    · have hpres := mergeStep_preserve_ne req2 acc k w2 n hk
      have IH := mergeFold_char req2 n tl (mergeStep req2 acc (k, w2)) hnd2
      have hfp_cons : findProp ((k, w2) :: tl) n = findProp tl n := by
        simp [findProp, hk]
      constructor
      · intro hnone
        rw [hfp_cons] at hnone
        have hrest := IH.1 hnone
        refine ⟨hrest.1.trans hpres.1, ?_⟩
        rw [hrest.2, hpres.2]
      · intro v hv
        rw [hfp_cons] at hv
        constructor
        · intro hacc_none
          have hrest := (IH.2 v hv).1 (hpres.1.trans hacc_none)
          refine ⟨hrest.1, ?_⟩
          rw [hrest.2, hpres.2]
        · intro w hacc_some
          have hrest := (IH.2 v hv).2 w (hpres.1.trans hacc_some)
          refine ⟨hrest.1, ?_⟩
          rw [hrest.2, hpres.2]

/-- C5: for a pair of simple object schemas, mergeProperties succeeds and,
for every property name, copies a name unique to either side as-is
together with its required status, and replaces a name present on both
sides by an anyOf of the two sub-documents, the result being required
exactly when the name is required on both sides. -/
theorem mergeProperties_spec (s1 s2 : JSONSchema) (n : String) (v w : JSONSchema)
    (h1 : isSimpleObjectSchema s1 = true)
    (h2 : isSimpleObjectSchema s2 = true)
    (hnd : ((s2.properties.getD []).map Prod.fst).Nodup)
    (hrk : RequiredNodupSub s1) :
    mergeProperties s1 s2 = .ok (mergeResult s1 s2)
    ∧ (findProp (s2.properties.getD []) n = none →
        findProp ((mergeResult s1 s2).properties.getD []) n
          = findProp (s1.properties.getD []) n
        ∧ (n ∈ (mergeResult s1 s2).required.getD [] ↔ n ∈ s1.required.getD []))
    ∧ (findProp (s2.properties.getD []) n = some v →
        findProp (s1.properties.getD []) n = none →
          findProp ((mergeResult s1 s2).properties.getD []) n = some v
          ∧ (n ∈ (mergeResult s1 s2).required.getD []
              ↔ n ∈ s2.required.getD []))
    ∧ (findProp (s2.properties.getD []) n = some v →
        findProp (s1.properties.getD []) n = some w →
          findProp ((mergeResult s1 s2).properties.getD []) n = some (anyOfPair w v)
          ∧ (n ∈ (mergeResult s1 s2).required.getD []
              ↔ (n ∈ s1.required.getD [] ∧ n ∈ s2.required.getD []))) := by
  have hok : mergeProperties s1 s2 = .ok (mergeResult s1 s2) := by
    simp [mergeProperties, h1]
  have hs1sub : ∀ m ∈ s1.required.getD [], m ∈ propertyNamesOf s1 := by
    cases hsr : s1.required with
    | none => simp
    | some r0 => simpa using (hrk r0 hsr).2
  refine ⟨hok, ?_, ?_, ?_⟩
  · intro hnone
    rw [mergeResult]
    cases hp2 : s2.properties with
    | none => exact ⟨rfl, Iff.rfl⟩
    | some ps2 =>
      rw [hp2, Option.getD_some] at hnone hnd
      have hchar := (mergeFold_char (s2.required.getD []) n ps2
        (s1.withProperties (some (s1.properties.getD []))) hnd).1 hnone
      constructor
      · rw [hchar.1, withProperties_properties, Option.getD_some]
      · rw [hchar.2, withProperties_required]
  · intro hv hacc_none
    rw [mergeResult]
    cases hp2 : s2.properties with
    | none =>
      rw [hp2] at hv
      simp [findProp] at hv
    | some ps2 =>
      rw [hp2, Option.getD_some] at hv hnd
      have hstart : findProp ((s1.withProperties
          (some (s1.properties.getD []))).properties.getD []) n = none := by
        rw [withProperties_properties, Option.getD_some]
        exact hacc_none
      have hchar := ((mergeFold_char (s2.required.getD []) n ps2
        (s1.withProperties (some (s1.properties.getD []))) hnd).2 v hv).1 hstart
      refine ⟨hchar.1, ?_⟩
      rw [hchar.2, withProperties_required]
      have hnr : n ∉ s1.required.getD [] := by
        intro hmem
        have h5 := hs1sub n hmem
        rw [propertyNamesOf] at h5
        rw [findProp_eq_none_iff] at hacc_none
        exact hacc_none h5
      constructor
      · rintro (hx | hx)
        · exact absurd hx hnr
        · exact hx
      · exact fun hx => Or.inr hx
  · intro hv hacc_some
    rw [mergeResult]
    cases hp2 : s2.properties with
    | none =>
      rw [hp2] at hv
      simp [findProp] at hv
    | some ps2 =>
      rw [hp2, Option.getD_some] at hv hnd
      have hstart : findProp ((s1.withProperties
          (some (s1.properties.getD []))).properties.getD []) n = some w := by
        rw [withProperties_properties, Option.getD_some]
        exact hacc_some
      have hchar := ((mergeFold_char (s2.required.getD []) n ps2
        (s1.withProperties (some (s1.properties.getD []))) hnd).2 v hv).2 w hstart
      refine ⟨hchar.1, ?_⟩
      rw [hchar.2, withProperties_required]

theorem mergeProperties_spec_witness :
    mergeProperties
        (objectSchema [("a", stringSchema false, true), ("b", numberSchema false, true)] false)
        (objectSchema [("b", booleanSchema false, false), ("c", stringSchema false, true)] false)
      = .ok (mergeResult
        (objectSchema [("a", stringSchema false, true), ("b", numberSchema false, true)] false)
        (objectSchema [("b", booleanSchema false, false), ("c", stringSchema false, true)] false))
    ∧ (findProp ((mergeResult
          (objectSchema [("a", stringSchema false, true), ("b", numberSchema false, true)] false)
          (objectSchema [("b", booleanSchema false, false), ("c", stringSchema false, true)] false)).properties.getD [])
        "b" = some (anyOfPair (numberSchema false) (booleanSchema false))
      ∧ ("b" ∈ (mergeResult
          (objectSchema [("a", stringSchema false, true), ("b", numberSchema false, true)] false)
          (objectSchema [("b", booleanSchema false, false), ("c", stringSchema false, true)] false)).required.getD []
        ↔ ("b" ∈ (objectSchema [("a", stringSchema false, true), ("b", numberSchema false, true)] false).required.getD []
          ∧ "b" ∈ (objectSchema [("b", booleanSchema false, false), ("c", stringSchema false, true)] false).required.getD []))) := by
  have hrk : RequiredNodupSub
      (objectSchema [("a", stringSchema false, true), ("b", numberSchema false, true)] false) := by
    intro r hr
    rw [show (objectSchema [("a", stringSchema false, true), ("b", numberSchema false, true)]
      false).required = some ["a", "b"] from rfl, Option.some.injEq] at hr
    subst hr
    refine ⟨by decide, ?_⟩
    intro m hm
    rw [show propertyNamesOf (objectSchema
      [("a", stringSchema false, true), ("b", numberSchema false, true)] false)
      = ["a", "b"] from rfl]
    exact hm
  exact ⟨(mergeProperties_spec
      (objectSchema [("a", stringSchema false, true), ("b", numberSchema false, true)] false)
      (objectSchema [("b", booleanSchema false, false), ("c", stringSchema false, true)] false)
      "b" (booleanSchema false) (numberSchema false) rfl rfl (by decide) hrk).1,
    (mergeProperties_spec
      (objectSchema [("a", stringSchema false, true), ("b", numberSchema false, true)] false)
      (objectSchema [("b", booleanSchema false, false), ("c", stringSchema false, true)] false)
      "b" (booleanSchema false) (numberSchema false) rfl rfl (by decide) hrk).2.2.2 rfl rfl⟩
